import Mathlib

set_option maxHeartbeats 1000000

attribute [local semireducible] Rat.add Rat.mul Rat.sub Rat.inv

/-!
Verification development for the projection extractor in
src/Compare_Allen-density_to_VSV-density/allen_xml_to_visual-areas_csv.py.

The Python script is embedded shallowly:

* Python dicts become insertion-ordered association lists (`lookupA`,
  `setA`, `modifyA` model subscript read, item assignment and in-place
  value mutation; insertion order is preserved, first key occurrence wins).
* Python floats are modelled as exact rationals; the literal 1e-9 becomes
  1 / 1000000000.
* The builtins float(...) and format(..., ".2E") are modelled by `pyFloat`
  (a parser returning `none` where float(...) would raise) and
  `pyFormatE2` (sign, two-decimal mantissa, E, signed two-digit exponent).
* Raised exceptions are modelled as `none` / `Option` failure propagating
  through `foldOptM`, which mirrors a Python for-loop in which any
  iteration may raise.
* An XML projection-structure-unionize element is a `PRecord`: a list of
  child tags paired with optional text (a child can be present with no
  text, which is Pythons None text).  A parsed document is the list of
  such records in document order, as produced by root.iter(...).
-/

/-- Association-list lookup: models Python dict subscript read.  The first
occurrence of the key wins (the dicts built by the script never hold
duplicate keys). -/
def lookupA {κ α : Type} [DecidableEq κ] : List (κ × α) → κ → Option α
  | [], _ => none
  | (k', v) :: m, k => if k' = k then some v else lookupA m k

/-- Association-list write: models Python dict item assignment, replacing
the value at an existing key in place and appending a fresh key at the
end, exactly as an insertion-ordered dict does. -/
def setA {κ α : Type} [DecidableEq κ] : List (κ × α) → κ → α → List (κ × α)
  | [], k, v => [(k, v)]
  | (k', v') :: m, k, v => if k' = k then (k', v) :: m else (k', v') :: setA m k v

/-- In-place update of the value stored at an existing key; a missing key
leaves the list unchanged (the script only modifies keys it created). -/
def modifyA {κ α : Type} [DecidableEq κ] : List (κ × α) → κ → (α → α) → List (κ × α)
  | [], _, _ => []
  | (k', v) :: m, k, g => if k' = k then (k', g v) :: m else (k', v) :: modifyA m k g

/-- Models Python dict .values(): the stored values in insertion order. -/
def valuesA {κ α : Type} (m : List (κ × α)) : List α := m.map Prod.snd

/-- Left fold in which every step may fail; a failing step aborts the whole
fold.  This mirrors a Python for-loop whose body may raise: the exception
propagates and the remaining iterations never run. -/
def foldOptM {α β : Type} (step : β → α → Option β) : β → List α → Option β
  | b, [] => some b
  | b, a :: l =>
    match step b a with
    | none => none
    | some b' => foldOptM step b' l

/-- One XML projection-structure-unionize element: child tags paired with
their optional text content. -/
structure PRecord where
  children : List (String × Option String)
  deriving DecidableEq

/-- Models ElementTree element.find(tag) followed by reading .text:
`none` when no such child exists, `some none` for a child with empty
(None) text, `some (some s)` for a child with text s. -/
def PRecord.find (r : PRecord) (tag : String) : Option (Option String) :=
  lookupA r.children tag

/-- Decimal digit characters of n, most significant first, by repeated
division; the first argument is fuel making the recursion structural. -/
def natDigitsAux : ℕ → ℕ → List Char
  | 0, _ => []
  | fuel + 1, n => if n = 0 then [] else natDigitsAux fuel (n / 10) ++ [Nat.digitChar (n % 10)]

/-- Digit characters of a natural number, most significant first; "0" for 0.
Used by the model of Python number formatting. -/
def natDigits (n : ℕ) : List Char :=
  if n = 0 then ['0'] else natDigitsAux n n

/-- The two final decimal digits of a natural number, as characters. -/
def twoDigits (n : ℕ) : List Char :=
  [Nat.digitChar (n / 10 % 10), Nat.digitChar (n % 10)]

/-- Base-10 logarithm by repeated division, with structural fuel. -/
def natLog10Aux : ℕ → ℕ → ℕ
  | 0, _ => 0
  | fuel + 1, n => if n < 10 then 0 else natLog10Aux fuel (n / 10) + 1

/-- Base-10 logarithm of a natural number (0 for inputs below 10). -/
def natLog10 (n : ℕ) : ℕ := natLog10Aux n n

/-- Decimal exponent of a positive rational: the integer e with
10 ^ e <= a < 10 ^ (e + 1). -/
def qexp10 (a : ℚ) : ℤ :=
  if 1 ≤ a then (natLog10 (a.num.toNat / a.den) : ℤ)
  else -((natLog10 ((a.den - 1) / a.num.toNat) : ℤ) + 1)

/-- Half-up rounding of a nonnegative rational to a natural number. -/
def roundPosNat (q : ℚ) : ℕ := (2 * q.num.toNat + q.den) / (2 * q.den)

/-- Integer powers of ten as rationals. -/
def qpow10 : ℤ → ℚ
  | Int.ofNat n => ((10 ^ n : ℕ) : ℚ)
  | Int.negSucc n => mkRat 1 (10 ^ (n + 1))

/-- Model of the Python builtin format(x, ".2E"): optional minus sign, a
mantissa with one integer digit and two decimals, the letter E, an
explicit exponent sign and an at-least-two-digit exponent. -/
def pyFormatE2 (q : ℚ) : String :=
  if q = 0 then "0.00E+00"
  else
    let sgn : List Char := if q < 0 then ['-'] else []
    let a : ℚ := |q|
    let e : ℤ := qexp10 a
    let M0 : ℕ := roundPosNat (a * qpow10 (2 - e))
    let M : ℕ := if 1000 ≤ M0 then M0 / 10 else M0
    let e2 : ℤ := if 1000 ≤ M0 then e + 1 else e
    let esgn : Char := if e2 < 0 then '-' else '+'
    let eabs : ℕ := e2.natAbs
    let edigs : List Char := if eabs < 10 then '0' :: natDigits eabs else natDigits eabs
    String.mk (sgn ++ natDigits (M / 100) ++ '.' :: twoDigits (M % 100) ++ 'E' :: esgn :: edigs)

/-- Numeric value of a list of digit characters (most significant first). -/
def digitsToNat (l : List Char) : ℕ :=
  l.foldl (fun acc c => 10 * acc + (c.toNat - 48)) 0

/-- Parses an unsigned decimal with optional fractional part; returns the
value and the unconsumed input. -/
def parseUnsigned (cs : List Char) : Option (ℚ × List Char) :=
  let ip := cs.takeWhile Char.isDigit
  let r1 := cs.dropWhile Char.isDigit
  match r1 with
  | c :: r2 =>
    if c = '.' then
      let fp := r2.takeWhile Char.isDigit
      let r3 := r2.dropWhile Char.isDigit
      if ip.isEmpty && fp.isEmpty then none
      else some ((digitsToNat ip : ℚ) + (digitsToNat fp : ℚ) / ((10 ^ fp.length : ℕ) : ℚ), r3)
    else if ip.isEmpty then none else some ((digitsToNat ip : ℚ), r1)
  | [] => if ip.isEmpty then none else some ((digitsToNat ip : ℚ), r1)

/-- Digit run of an exponent with its sign already consumed; the digits
must be nonempty and must exhaust the input. -/
def parseExpDigits (sg : ℤ) (l : List Char) : Option ℤ :=
  let ds := l.takeWhile Char.isDigit
  let r3 := l.dropWhile Char.isDigit
  if ds.isEmpty || !r3.isEmpty then none else some (sg * (digitsToNat ds : ℤ))

/-- Exponent body after the E marker: optional sign, then digits. -/
def parseExpTail (r : List Char) : Option ℤ :=
  match r with
  | c2 :: r' =>
    if c2 = '+' then parseExpDigits 1 r'
    else if c2 = '-' then parseExpDigits (-1) r'
    else parseExpDigits 1 r
  | [] => parseExpDigits 1 r

/-- Parses an optional exponent suffix (E or e, optional sign, digits); the
whole remaining input must be consumed. -/
def parseExpPart (cs : List Char) : Option ℤ :=
  match cs with
  | [] => some 0
  | c :: r => if c = 'E' ∨ c = 'e' then parseExpTail r else none

/-- Model of the Python str.strip() method: remove leading and trailing
whitespace. -/
def pyStrip (s : String) : String :=
  String.mk (((s.data.dropWhile Char.isWhitespace).reverse.dropWhile Char.isWhitespace).reverse)

/-- Model of the Python str.lower() method. -/
def pyLower (s : String) : String :=
  String.mk (s.data.map Char.toLower)

/-- The float(s) model on the character list of the input: optional sign,
then an unsigned decimal, then an optional exponent part. -/
def pyFloatChars (cs : List Char) : Option ℚ :=
  let sc : ℚ × List Char :=
    match cs with
    | c :: r => if c = '-' then (-1, r) else if c = '+' then (1, r) else (1, cs)
    | [] => (1, cs)
  match parseUnsigned sc.2 with
  | none => none
  | some (m, rest) =>
    match parseExpPart rest with
    | none => none
    | some e => some (sc.1 * m * qpow10 e)

/-- Model of the Python builtin float(s): `none` exactly where float(s)
raises ValueError on the strings this program feeds it. -/
def pyFloat (s : String) : Option ℚ :=
  pyFloatChars s.data

/-- Models float(t) applied to an optional element text: float(None)
raises TypeError, so a missing text is a failure as well. -/
def pyFloatOfText : Option String → Option ℚ
  | none => none
  | some s => pyFloat s

/-- Parses every string of a list, failing if any single parse fails: the
model of sum(float(v) for v in ...) before the summation itself. -/
def pyFloatList : List String → Option (List ℚ)
  | [] => some []
  | s :: l =>
    match pyFloat s, pyFloatList l with
    | some q, some qs => some (q :: qs)
    | _, _ => none

/-- Innermost table layer: area name to formatted value string. -/
abbrev FieldMap := List (String × String)

/-- Field name to its per-area map. -/
abbrev HemiMap := List (String × FieldMap)

/-- Hemisphere id to its field maps: the hemisphere_data structure. -/
abbrev Table := List (String × HemiMap)

/-- One emitted injection-site row: (filename, hemisphere id, structure id
or the literal marker "inferred"). -/
abbrev Site := String × String × String

instance decEqHemiEntry : DecidableEq (String × HemiMap) := inferInstance

instance decEqTable : DecidableEq Table :=
  inferInstanceAs (DecidableEq (List (String × HemiMap)))

/-- The area catalog areas_of_interest of the script (insertion order). -/
def areas_of_interest : List (String × ℕ) :=
  [("VISal", 402), ("VISam", 394), ("VISl", 409), ("VISp", 385), ("VISpl", 425),
   ("VISpm", 533), ("VISli", 312782574), ("VISpor", 312782628), ("RSPagl", 894),
   ("RSPd", 879), ("RSPv", 886), ("VISa", 312782546), ("VISrl", 417)]

/-- The additional_fields list of the script. -/
def additional_fields : List String :=
  ["normalized-projection-volume", "projection-intensity", "projection-volume",
   "sum-pixel-intensity", "sum-pixels", "sum-projection-pixel-intensity",
   "sum-projection-pixels", "volume"]

/-- The field iteration order of the script:
["projection-density"] + additional_fields. -/
def fieldList (addFields : List String) : List String :=
  "projection-density" :: addFields

/-- Line 36 of the script: the fresh per-file table, every
(hemisphere, field, area) cell initialised to the string "0". -/
def initTable (areas : List (String × ℕ)) (addFields : List String) : Table :=
  ["1", "2", "3"].map (fun h =>
    (h, (fieldList addFields).map (fun f =>
      (f, areas.map (fun p => (p.1, "0"))))))

/-- Nested read hemisphere_data[h][f][a]. -/
def tableGet (t : Table) (h f a : String) : Option String :=
  (lookupA t h).bind (fun hm => (lookupA hm f).bind (fun fm => lookupA fm a))

/-- The sub-dictionary hemisphere_data[h][f]. -/
def subMap (t : Table) (h f : String) : Option FieldMap :=
  (lookupA t h).bind (fun hm => lookupA hm f)

/-- Nested write hemisphere_data[h][f][a] = v. -/
def tableSet (t : Table) (h f a v : String) : Table :=
  modifyA t h (fun hm => modifyA hm f (fun fm => setA fm a v))

/-- Line 56 of the script: the string stored for one field of a matched
record.  A missing child element yields "0"; a present child is parsed
with float (failure propagates) and formatted with format(-, ".2E"). -/
def fieldCellValue (r : PRecord) (f : String) : Option String :=
  match r.find f with
  | none => some "0"
  | some txt => (pyFloatOfText txt).map pyFormatE2

/-- Lines 54 to 56: write every field of a matched record into the table
row of hemisphere h and area a. -/
def setFields (fields : List String) (t : Table) (h a : String) (r : PRecord) :
    Option Table :=
  foldOptM (fun t' f => (fieldCellValue r f).map (fun v => tableSet t' h f a v)) t fields

/-- Lines 52 to 56: the body of the area loop for one record, one catalog
entry p.  The record text of structure-id must equal str(p.2) exactly. -/
def areaStep (r : PRecord) (sTxt : Option String) (h : String)
    (t : Table) (p : String × ℕ) : Option Table :=
  if sTxt = some (toString p.2) then
    match lookupA t h with
    | none => none
    | some hm => setFields (hm.map Prod.fst) t h p.1 r
  else some t

/-- Lines 39 to 56: processing of a single projection record into the
table.  Records lacking the hemisphere-id or structure-id child, or whose
hemisphere text is not a key of the table, are skipped. -/
def processRecord (areas : List (String × ℕ)) (t : Table) (r : PRecord) :
    Option Table :=
  match r.find "hemisphere-id", r.find "structure-id" with
  | some hTxt, some sTxt =>
    match hTxt with
    | none => some t
    | some h =>
      match lookupA t h with
      | none => some t
      | some _ => foldOptM (areaStep r sTxt h) t areas
  | _, _ => some t

/-- Python equality between a str and an int: always False, no coercion.
This is the comparison structure_id in visp_ids.values() performs on
line 73 of the script, where visp_ids.values() holds the integer 385. -/
def pyStrEqInt (_s : String) (_n : ℕ) : Bool := false

/-- The body of the explicit-injection loop for a single record: lines 62
to 76 of the script.  Records lacking any of the three children are
skipped; a present child with None text makes strip() raise. -/
def injectionScanStep (filename : String) (vispVals : List ℕ)
    (acc : List Site × Bool) (r : PRecord) : Option (List Site × Bool) :=
  match r.find "is-injection", r.find "structure-id", r.find "hemisphere-id" with
  | some iTxt, some sTxt, some hTxt =>
    match iTxt, sTxt, hTxt with
    | some i, some s, some h =>
      let isInj := pyLower (pyStrip i)
      let s' := pyStrip s
      let h' := pyStrip h
      if (isInj == "true" || isInj == "1" || isInj == "yes")
          && vispVals.any (fun n => pyStrEqInt s' n)
          && (h' == "1" || h' == "2")
      then some (acc.1 ++ [(filename, h', s')], true)
      else some acc
    | _, _, _ => none
  | _, _, _ => some acc

/-- Lines 59 to 76: the scan for explicit injection records.  Returns the
collected sites and the found_injection flag; `none` models the
AttributeError raised when one of the three children has None text. -/
def injectionScan (filename : String) (vispVals : List ℕ) (doc : List PRecord) :
    Option (List Site × Bool) :=
  foldOptM (injectionScanStep filename vispVals) ([], false) doc

/-- Lines 13 to 19 of the script: the try block of the per-hemisphere
score.  Any failed dict lookup (KeyError) or failed float parse
(ValueError) is `none`, which the caller turns into the except branch. -/
def tryScore (t : Table) (h : String) : Option ℚ :=
  match lookupA t h with
  | none => none
  | some hm =>
    match lookupA hm "projection-volume" with
    | none => none
    | some volMap =>
      match pyFloatList (valuesA volMap) with
      | none => none
      | some vols =>
        match lookupA hm "projection-intensity" with
        | none => none
        | some intMap =>
          match pyFloatList (valuesA intMap) with
          | none => none
          | some ints => some (vols.sum + (1 / 1000000000) * ints.sum)

/-- scores[h] after the try/except: the computed score, or 0 when the try
block raised. -/
def hemiScore (t : Table) (h : String) : ℚ :=
  (tryScore t h).getD 0

/-- Lines 13 to 29: infer_injection_hemisphere.  Hemisphere "1" wins on a
strictly greater score, "2" on the reverse, "unknown" on an exact tie. -/
def infer_injection_hemisphere (t : Table) : String :=
  let s1 := hemiScore t "1"
  let s2 := hemiScore t "2"
  if s1 > s2 then "1" else if s2 > s1 then "2" else "unknown"

/-- Lines 31 to 83: extract_projection_data on an already-parsed document
(the list of projection-structure-unionize records in document order).
The filename argument is the stem of the source path.  `none` models an
uncaught exception escaping the function. -/
def extract_projection_data (filename : String) (doc : List PRecord)
    (areas : List (String × ℕ)) (addFields : List String) :
    Option (String × Table × List Site) :=
  (foldOptM (processRecord areas) (initTable areas addFields) doc).bind (fun t =>
    (lookupA areas "VISp").bind (fun vispId =>
      (injectionScan filename [vispId] doc).bind (fun sf =>
        if sf.2 then some (filename, t, sf.1)
        else some (filename, t,
          sf.1 ++ [(filename, infer_injection_hemisphere t, "inferred")]))))

/-- A directory entry: raw file name plus its parsed record list. -/
structure PFile where
  fname : String
  recs : List PRecord

/-- The header row of every per-hemisphere per-field CSV. -/
def csvHeaderMain (areas : List (String × ℕ)) : List String :=
  "filename" :: areas.map Prod.fst

/-- The header row of output_injection_sites.csv. -/
def csvHeaderInj : List String :=
  ["filename", "hemisphere_id", "structure_id"]

/-- Line 114 of the script: the data row appended for one file to the CSV
of hemisphere h and field fl. -/
def csvRow (areas : List (String × ℕ)) (fn : String) (t : Table) (h fl : String) :
    List String :=
  fn :: areas.map (fun p => (tableGet t h fl p.1).getD "")

/-- Lines 107 to 119: processing of one directory entry.  A file whose
extraction raised earlier in the batch (flag already false) is never
reached; a file whose extraction raises stops the batch; otherwise one
data row is appended to each hemisphere/field CSV and the injection rows
are appended when nonempty. -/
def processFileStep (areas : List (String × ℕ)) (addFields : List String)
    (st : List ((String × String) × List (List String)) × List (List String) × Bool)
    (f : PFile) :
    List ((String × String) × List (List String)) × List (List String) × Bool :=
  if st.2.2 = false then st
  else
    match extract_projection_data (f.fname.dropRight 4) f.recs areas addFields with
    | none => (st.1, st.2.1, false)
    | some (fn, t, sites) =>
      let hemi := st.1.map (fun e => (e.1, e.2 ++ [csvRow areas fn t e.1.1 e.1.2]))
      let inj := if sites.isEmpty then st.2.1
        else st.2.1 ++ sites.map (fun s => [s.1, s.2.1, s.2.2])
      (hemi, inj, true)

/-- Lines 85 to 125: process_xml_files over an abstract directory.
`none` input models a missing directory: the function prints an error and
returns, writing nothing.  Otherwise the 27 hemisphere/field CSVs and the
injection CSV are truncated to their header rows first, then the .xml
entries are processed in order; a file whose extraction raises stops the
batch (flag false), leaving the rows written so far in place. -/
def process_xml_files (dirFiles : Option (List PFile))
    (areas : List (String × ℕ)) (addFields : List String) :
    Option (List ((String × String) × List (List String)) × List (List String) × Bool) :=
  match dirFiles with
  | none => none
  | some files =>
    let xmls := files.filter (fun f => f.fname.endsWith ".xml")
    let hemiInit : List ((String × String) × List (List String)) :=
      (["1", "2", "3"].map (fun h =>
        (fieldList addFields).map (fun fl => ((h, fl), [csvHeaderMain areas])))).flatten
    let injInit : List (List String) := [csvHeaderInj]
    some (xmls.foldl (processFileStep areas addFields) (hemiInit, injInit, true))

/-- A record explicitly matches hemisphere h and area a when its
hemisphere-id text is h and its structure-id text is the decimal rendering
of the catalog id of a: exactly the condition under which lines 52 to 56
write the row of (h, a). -/
def recMatches (areas : List (String × ℕ)) (r : PRecord) (h a : String) : Prop :=
  r.find "hemisphere-id" = some (some h) ∧
  ∃ p ∈ areas, p.1 = a ∧ r.find "structure-id" = some (some (toString p.2))

instance (areas : List (String × ℕ)) (r : PRecord) (h a : String) :
    Decidable (recMatches areas r h a) := by
  unfold recMatches
  infer_instance

/-- Exchange of the hemisphere keys "1" and "2". -/
def swapKey (k : String) : String :=
  if k = "1" then "2" else if k = "2" then "1" else k

/-- A table with the hemisphere-1 and hemisphere-2 data swapped. -/
def swapHemis (t : Table) : Table :=
  t.map (fun p => (swapKey p.1, p.2))

/-- Exchange of the inference results "1" and "2" ("unknown" is fixed). -/
def swapRes (s : String) : String :=
  if s = "1" then "2" else if s = "2" then "1" else s

/-- Structural well-formedness of a hemisphere table: the hemisphere keys
are exactly "1", "2", "3", every hemisphere map has exactly the measured
field keys, and every field map has an entry for every catalog area. -/
def WF (areas : List (String × ℕ)) (addFields : List String) (t : Table) : Prop :=
  t.map Prod.fst = ["1", "2", "3"] ∧
  (∀ p ∈ t, p.2.map Prod.fst = fieldList addFields) ∧
  (∀ p ∈ t, ∀ q ∈ p.2, ∀ pa ∈ areas, (lookupA q.2 pa.1).isSome = true)

/-- Every cell of the table is the default "0" or a formatted float. -/
def AllCellsFmt (t : Table) : Prop :=
  ∀ p ∈ t, ∀ q ∈ p.2, ∀ c ∈ q.2, c.2 = "0" ∨ ∃ x : ℚ, c.2 = pyFormatE2 x

/-- A record carrying an explicit injection flag for VISp, hemisphere 1:
the setting of the end-to-end scenario of the specification. -/
def injTrueRec : PRecord :=
  ⟨[("is-injection", some "true"), ("structure-id", some "385"), ("hemisphere-id", some "1")]⟩

/-- A VISp record whose projection-density text is not numeric. -/
def badFieldRec : PRecord :=
  ⟨[("hemisphere-id", some "1"), ("structure-id", some "385"),
    ("projection-density", some "abc")]⟩

/-- A VISp record carrying no measured field at all. -/
def plainVispRec : PRecord :=
  ⟨[("hemisphere-id", some "1"), ("structure-id", some "385")]⟩

/-- A VISp record with a single numeric volume field. -/
def volVispRec : PRecord :=
  ⟨[("hemisphere-id", some "1"), ("structure-id", some "385"), ("volume", some "2.5")]⟩

/-- The table extracted from a document holding just `plainVispRec`. -/
def plainVispTable : Table :=
  (extract_projection_data "f" [plainVispRec] areas_of_interest additional_fields).elim
    [] (fun x => x.2.1)

/-- The table extracted from a document holding just `volVispRec`. -/
def volVispTable : Table :=
  (extract_projection_data "x" [volVispRec] areas_of_interest additional_fields).elim
    [] (fun x => x.2.1)

/-- A table in which hemisphere 1 wins on volume but hemisphere 2 wins on
the combined score, via a huge intensity. -/
def tiltTable : Table :=
  [("1", [("projection-volume", [("VISp", "1")]), ("projection-intensity", [("VISp", "0")])]),
   ("2", [("projection-volume", [("VISp", "0")]),
     ("projection-intensity", [("VISp", "2000000000")])])]

/-- A small two-hemisphere table with volumes 3 and 1. -/
def scoreTable : Table :=
  [("1", [("projection-volume", [("a", "3")]), ("projection-intensity", [("a", "0")])]),
   ("2", [("projection-volume", [("a", "1")]), ("projection-intensity", [("a", "0")])])]

/-- A table holding only midline (hemisphere 3) data. -/
def junkTable3 : Table :=
  [("3", [("projection-volume", [("VISp", "9")])])]

/-! ### Association-list lemmas -/

theorem lookupA_setA_self {κ α : Type} [DecidableEq κ] (m : List (κ × α)) (k : κ) (v : α) :
    lookupA (setA m k v) k = some v := by
  induction m with
  | nil => simp [setA, lookupA]
  | cons p m ih =>
    obtain ⟨k', v'⟩ := p
    by_cases h : k' = k
    · simp [setA, h, lookupA]
    · simp [setA, h, lookupA, ih]

theorem lookupA_setA_ne {κ α : Type} [DecidableEq κ] (m : List (κ × α)) (k k' : κ) (v : α)
    (hne : k' ≠ k) : lookupA (setA m k v) k' = lookupA m k' := by
  induction m with
  | nil =>
    simp only [setA, lookupA]
    rw [if_neg (Ne.symm hne)]
  | cons p m ih =>
    obtain ⟨k0, v0⟩ := p
    by_cases h : k0 = k
    · subst h
      simp only [setA, if_pos rfl, lookupA]
      rw [if_neg (Ne.symm hne), if_neg (Ne.symm hne)]
    · simp only [setA, if_neg h, lookupA]
      by_cases h2 : k0 = k'
      · rw [if_pos h2, if_pos h2]
      · rw [if_neg h2, if_neg h2]
        exact ih

theorem lookupA_modifyA_self {κ α : Type} [DecidableEq κ] (m : List (κ × α)) (k : κ)
    (g : α → α) : lookupA (modifyA m k g) k = (lookupA m k).map g := by
  induction m with
  | nil => simp [modifyA, lookupA]
  | cons p m ih =>
    obtain ⟨k0, v0⟩ := p
    by_cases h : k0 = k
    · simp [modifyA, h, lookupA]
    · simp [modifyA, h, lookupA, ih]

theorem lookupA_modifyA_ne {κ α : Type} [DecidableEq κ] (m : List (κ × α)) (k k' : κ)
    (g : α → α) (hne : k' ≠ k) : lookupA (modifyA m k g) k' = lookupA m k' := by
  induction m with
  | nil => simp [modifyA, lookupA]
  | cons p m ih =>
    obtain ⟨k0, v0⟩ := p
    by_cases h : k0 = k
    · subst h
      simp only [modifyA, if_pos rfl, lookupA]
      rw [if_neg (Ne.symm hne), if_neg (Ne.symm hne)]
    · simp only [modifyA, if_neg h, lookupA]
      by_cases h2 : k0 = k'
      · rw [if_pos h2, if_pos h2]
      · rw [if_neg h2, if_neg h2]
        exact ih

theorem modifyA_keys {κ α : Type} [DecidableEq κ] (m : List (κ × α)) (k : κ) (g : α → α) :
    (modifyA m k g).map Prod.fst = m.map Prod.fst := by
  induction m with
  | nil => simp [modifyA]
  | cons p m ih =>
    obtain ⟨k0, v0⟩ := p
    by_cases h : k0 = k
    · simp [modifyA, h]
    · simp [modifyA, h, ih]

theorem lookupA_mem {κ α : Type} [DecidableEq κ] (m : List (κ × α)) (k : κ) (x : α)
    (h : lookupA m k = some x) : (k, x) ∈ m := by
  induction m with
  | nil => simp [lookupA] at h
  | cons p m ih =>
    obtain ⟨k0, v0⟩ := p
    by_cases hk : k0 = k
    · subst hk
      simp [lookupA] at h
      simp [h]
    · simp only [lookupA, if_neg hk] at h
      exact List.mem_cons_of_mem _ (ih h)

theorem mem_setA {κ α : Type} [DecidableEq κ] (m : List (κ × α)) (k : κ) (v : α) (c : κ × α)
    (h : c ∈ setA m k v) : c ∈ m ∨ c.2 = v := by
  induction m with
  | nil =>
    simp [setA] at h
    simp [h]
  | cons p m ih =>
    obtain ⟨k0, v0⟩ := p
    by_cases hk : k0 = k
    · simp only [setA, if_pos hk] at h
      rcases List.mem_cons.mp h with h | h
      · simp [h]
      · exact Or.inl (List.mem_cons_of_mem _ h)
    · simp only [setA, if_neg hk] at h
      rcases List.mem_cons.mp h with h | h
      · exact Or.inl (by simp [h])
      · rcases ih h with h | h
        · exact Or.inl (List.mem_cons_of_mem _ h)
        · exact Or.inr h

theorem mem_modifyA {κ α : Type} [DecidableEq κ] (m : List (κ × α)) (k : κ) (g : α → α)
    (c : κ × α) (h : c ∈ modifyA m k g) : c ∈ m ∨ ∃ d ∈ m, c = (d.1, g d.2) := by
  induction m with
  | nil => simp [modifyA] at h
  | cons p m ih =>
    obtain ⟨k0, v0⟩ := p
    by_cases hk : k0 = k
    · simp only [modifyA, if_pos hk] at h
      rcases List.mem_cons.mp h with h | h
      · exact Or.inr ⟨(k0, v0), List.mem_cons_self _ _, by simp [h]⟩
      · exact Or.inl (List.mem_cons_of_mem _ h)
    · simp only [modifyA, if_neg hk] at h
      rcases List.mem_cons.mp h with h | h
      · exact Or.inl (by simp [h])
      · rcases ih h with h | h
        · exact Or.inl (List.mem_cons_of_mem _ h)
        · obtain ⟨d, hd, hc⟩ := h
          exact Or.inr ⟨d, List.mem_cons_of_mem _ hd, hc⟩

theorem lookupA_isSome_of_mem_keys {κ α : Type} [DecidableEq κ] (m : List (κ × α)) (k : κ)
    (h : k ∈ m.map Prod.fst) : (lookupA m k).isSome := by
  induction m with
  | nil => simp at h
  | cons p m ih =>
    obtain ⟨k0, v0⟩ := p
    by_cases hk : k0 = k
    · simp [lookupA, hk]
    · simp only [List.map_cons, List.mem_cons] at h
      rcases h with h | h
      · exact absurd h.symm hk
      · simp [lookupA, hk, ih h]

/-! ### foldOptM lemmas -/

theorem foldOptM_nil {α β : Type} (step : β → α → Option β) (b : β) :
    foldOptM step b [] = some b := rfl

theorem foldOptM_cons_none {α β : Type} (step : β → α → Option β) (b : β) (a : α)
    (l : List α) (h : step b a = none) : foldOptM step b (a :: l) = none := by
  simp [foldOptM, h]

theorem foldOptM_cons_some {α β : Type} (step : β → α → Option β) (b b' : β) (a : α)
    (l : List α) (h : step b a = some b') :
    foldOptM step b (a :: l) = foldOptM step b' l := by
  simp [foldOptM, h]

theorem foldOptM_append {α β : Type} (step : β → α → Option β) (b : β) (l1 l2 : List α) :
    foldOptM step b (l1 ++ l2) =
      (foldOptM step b l1).bind (fun b' => foldOptM step b' l2) := by
  induction l1 generalizing b with
  | nil => simp [foldOptM]
  | cons a l ih =>
    cases h : step b a with
    | none => simp [foldOptM, h]
    | some b1 => simp [foldOptM, h, ih]

theorem foldOptM_preserves {α β : Type} (P : β → Prop) (step : β → α → Option β)
    (l : List α) (hstep : ∀ a ∈ l, ∀ b b', step b a = some b' → P b → P b') :
    ∀ b b', foldOptM step b l = some b' → P b → P b' := by
  induction l with
  | nil =>
    intro b b' h hb
    simp [foldOptM] at h
    rwa [← h]
  | cons a l ih =>
    intro b b' h hb
    cases hs : step b a with
    | none => rw [foldOptM_cons_none _ _ _ _ hs] at h; exact absurd h (by simp)
    | some b1 =>
      rw [foldOptM_cons_some _ _ _ _ _ hs] at h
      exact ih (fun x hx => hstep x (List.mem_cons_of_mem _ hx)) b1 b' h
        (hstep a (List.mem_cons_self _ _) b b1 hs hb)

/-! ### Character and parser lemmas -/

theorem takeWhile_all {p : Char → Bool} {l : List Char} (h : ∀ c ∈ l, p c = true) :
    l.takeWhile p = l := by
  induction l with
  | nil => rfl
  | cons c l ih =>
    simp [List.takeWhile, h c (List.mem_cons_self _ _),
      ih (fun x hx => h x (List.mem_cons_of_mem _ hx))]

theorem dropWhile_all {p : Char → Bool} {l : List Char} (h : ∀ c ∈ l, p c = true) :
    l.dropWhile p = [] := by
  induction l with
  | nil => rfl
  | cons c l ih =>
    simp [List.dropWhile, h c (List.mem_cons_self _ _),
      ih (fun x hx => h x (List.mem_cons_of_mem _ hx))]

theorem takeWhile_append_stop {p : Char → Bool} {l1 : List Char} {c : Char} {l2 : List Char}
    (h1 : ∀ x ∈ l1, p x = true) (hc : p c = false) :
    (l1 ++ c :: l2).takeWhile p = l1 := by
  induction l1 with
  | nil => simp [List.takeWhile, hc]
  | cons a l ih =>
    simp [List.takeWhile, h1 a (List.mem_cons_self _ _),
      ih (fun x hx => h1 x (List.mem_cons_of_mem _ hx))]

theorem dropWhile_append_stop {p : Char → Bool} {l1 : List Char} {c : Char} {l2 : List Char}
    (h1 : ∀ x ∈ l1, p x = true) (hc : p c = false) :
    (l1 ++ c :: l2).dropWhile p = c :: l2 := by
  induction l1 with
  | nil => simp [List.dropWhile, hc]
  | cons a l ih =>
    simp [List.dropWhile, h1 a (List.mem_cons_self _ _),
      ih (fun x hx => h1 x (List.mem_cons_of_mem _ hx))]

theorem digitChar_isDigit {d : ℕ} (h : d < 10) : (Nat.digitChar d).isDigit = true := by
  interval_cases d <;> decide

theorem natDigitsAux_digits (fuel n : ℕ) : ∀ c ∈ natDigitsAux fuel n, c.isDigit = true := by
  induction fuel generalizing n with
  | zero => intro c hc; simp [natDigitsAux] at hc
  | succ fuel ih =>
    intro c hc
    by_cases h : n = 0
    · simp [natDigitsAux, h] at hc
    · simp only [natDigitsAux, if_neg h, List.mem_append, List.mem_singleton] at hc
      rcases hc with hc | hc
      · exact ih _ c hc
      · rw [hc]
        exact digitChar_isDigit (Nat.mod_lt _ (by norm_num))

theorem natDigits_digits (n : ℕ) : ∀ c ∈ natDigits n, c.isDigit = true := by
  intro c hc
  by_cases h : n = 0
  · simp [natDigits, h] at hc
    rw [hc]; decide
  · simp only [natDigits, if_neg h] at hc
    exact natDigitsAux_digits n n c hc

theorem natDigits_ne_nil (n : ℕ) : natDigits n ≠ [] := by
  by_cases h : n = 0
  · simp [natDigits, h]
  · simp only [natDigits, if_neg h]
    cases n with
    | zero => exact absurd rfl h
    | succ m =>
      simp only [natDigitsAux, if_neg h]
      simp

theorem twoDigits_digits (n : ℕ) : ∀ c ∈ twoDigits n, c.isDigit = true := by
  intro c hc
  simp only [twoDigits, List.mem_cons, List.mem_singleton, List.not_mem_nil, or_false] at hc
  rcases hc with hc | hc <;> rw [hc]
  · exact digitChar_isDigit (Nat.mod_lt _ (by norm_num))
  · exact digitChar_isDigit (Nat.mod_lt _ (by norm_num))

theorem isDigit_ne_dash {c : Char} (h : c.isDigit = true) : c ≠ '-' := by
  intro he; rw [he] at h; exact absurd h (by decide)

theorem isDigit_ne_plus {c : Char} (h : c.isDigit = true) : c ≠ '+' := by
  intro he; rw [he] at h; exact absurd h (by decide)

/-- Any character list of the shape produced by pyFormatE2 on a nonzero
value parses under the float model. -/
theorem pyFloatChars_shape_isSome (sgn ds1 ds2 ds3 : List Char) (esgn : Char)
    (hsgn : sgn = [] ∨ sgn = ['-'])
    (h1 : ∀ c ∈ ds1, c.isDigit = true) (h1n : ds1 ≠ [])
    (h2 : ∀ c ∈ ds2, c.isDigit = true)
    (h3 : ∀ c ∈ ds3, c.isDigit = true) (h3n : ds3 ≠ [])
    (hesgn : esgn = '+' ∨ esgn = '-') :
    (pyFloatChars (sgn ++ ds1 ++ '.' :: ds2 ++ 'E' :: esgn :: ds3)).isSome = true := by
  obtain ⟨c1, t1, rfl⟩ : ∃ c1 t1, ds1 = c1 :: t1 := by
    cases ds1 with
    | nil => exact absurd rfl h1n
    | cons a l => exact ⟨a, l, rfl⟩
  have hc1 : c1.isDigit = true := h1 c1 (List.mem_cons_self _ _)
  have ht1 : ∀ c ∈ t1, c.isDigit = true := fun c hc => h1 c (List.mem_cons_of_mem _ hc)
  have hip : (t1 ++ '.' :: ds2 ++ 'E' :: esgn :: ds3).takeWhile Char.isDigit = t1 := by
    rw [List.append_assoc t1]
    exact takeWhile_append_stop ht1 (by decide)
  have hr1 : (t1 ++ '.' :: ds2 ++ 'E' :: esgn :: ds3).dropWhile Char.isDigit =
      '.' :: (ds2 ++ 'E' :: esgn :: ds3) := by
    rw [List.append_assoc t1]
    exact dropWhile_append_stop ht1 (by decide)
  have hfp : (ds2 ++ 'E' :: esgn :: ds3).takeWhile Char.isDigit = ds2 :=
    takeWhile_append_stop h2 (by decide)
  have hr3 : (ds2 ++ 'E' :: esgn :: ds3).dropWhile Char.isDigit = 'E' :: esgn :: ds3 :=
    dropWhile_append_stop h2 (by decide)
  have hparse : parseUnsigned (c1 :: (t1 ++ '.' :: ds2 ++ 'E' :: esgn :: ds3)) =
      some ((digitsToNat (c1 :: t1) : ℚ) +
        (digitsToNat ds2 : ℚ) / ((10 ^ ds2.length : ℕ) : ℚ), 'E' :: esgn :: ds3) := by
    have htake : (c1 :: (t1 ++ '.' :: ds2 ++ 'E' :: esgn :: ds3)).takeWhile Char.isDigit =
        c1 :: t1 := by
      simp only [List.takeWhile, hc1, hip]
    have hdrop : (c1 :: (t1 ++ '.' :: ds2 ++ 'E' :: esgn :: ds3)).dropWhile Char.isDigit =
        '.' :: (ds2 ++ 'E' :: esgn :: ds3) := by
      simp only [List.dropWhile, hc1, hr1]
    simp only [parseUnsigned, htake, hdrop, if_pos rfl, hfp, hr3]
    simp
  have hdigits : ∀ sg : ℤ, parseExpDigits sg ds3 = some (sg * (digitsToNat ds3 : ℤ)) := by
    intro sg
    have hne : ds3.isEmpty = false := by
      cases ds3 with
      | nil => exact absurd rfl h3n
      | cons a l => rfl
    simp only [parseExpDigits, takeWhile_all h3, dropWhile_all h3, hne]
    rfl
  have hexp : parseExpPart ('E' :: esgn :: ds3) =
      some ((if esgn = '+' then 1 else -1) * (digitsToNat ds3 : ℤ)) := by
    rcases hesgn with he | he <;> subst he
    · simp only [parseExpPart, if_pos (Or.inl rfl), parseExpTail, if_pos rfl, hdigits]
      simp
    · have hpm : ¬ ('-' : Char) = '+' := by decide
      simp only [parseExpPart, if_pos (Or.inl rfl), parseExpTail, if_neg hpm, if_pos rfl,
        hdigits]
      simp
  rcases hsgn with hs | hs <;> subst hs
  · simp only [List.nil_append, List.cons_append]
    simp only [pyFloatChars, if_neg (isDigit_ne_dash hc1), if_neg (isDigit_ne_plus hc1)]
    simp only [hparse, hexp]
    rfl
  · simp only [List.cons_append, List.nil_append]
    simp only [pyFloatChars, if_true, if_pos rfl]
    simp only [hparse, hexp]
    rfl

theorem edigs_digits (n : ℕ) :
    ∀ c ∈ (if n < 10 then '0' :: natDigits n else natDigits n), c.isDigit = true := by
  intro c hc
  by_cases h : n < 10
  · rw [if_pos h] at hc
    rcases List.mem_cons.mp hc with hc | hc
    · rw [hc]; decide
    · exact natDigits_digits n c hc
  · rw [if_neg h] at hc
    exact natDigits_digits n c hc

theorem edigs_ne_nil (n : ℕ) :
    (if n < 10 then '0' :: natDigits n else natDigits n) ≠ [] := by
  by_cases h : n < 10
  · simp [if_pos h]
  · rw [if_neg h]
    exact natDigits_ne_nil n

theorem esgn_shape (e2 : ℤ) :
    (if e2 < 0 then '-' else '+') = '+' ∨ (if e2 < 0 then '-' else '+') = '-' := by
  by_cases h : e2 < 0
  · exact Or.inr (if_pos h)
  · exact Or.inl (if_neg h)

/-- The output of the format(-, ".2E") model always parses back under the
float model: formatted table cells can never make float(...) raise. -/
theorem pyFormatE2_parses (q : ℚ) : (pyFloat (pyFormatE2 q)).isSome = true := by
  by_cases h0 : q = 0
  · subst h0
    decide
  · unfold pyFormatE2
    rw [if_neg h0]
    refine pyFloatChars_shape_isSome _ _ _ _ _ ?_ (natDigits_digits _) (natDigits_ne_nil _)
      (twoDigits_digits _) (edigs_digits _) (edigs_ne_nil _) (esgn_shape _)
    by_cases hq : q < 0
    · exact Or.inr (if_pos hq)
    · exact Or.inl (if_neg hq)

theorem pyFloat_zero : pyFloat "0" = some 0 := by decide

/-! ### Table well-formedness -/

theorem lookupA_map_graph {κ α : Type} [DecidableEq κ] (l : List κ) (F : κ → α) (k : κ)
    (h : k ∈ l) : lookupA (l.map (fun x => (x, F x))) k = some (F k) := by
  induction l with
  | nil => simp at h
  | cons x l ih =>
    by_cases hx : x = k
    · subst hx
      simp [lookupA]
    · rcases List.mem_cons.mp h with h' | h'
      · exact absurd h'.symm hx
      · simp only [List.map_cons, lookupA, if_neg hx]
        exact ih h'

theorem lookupA_const_vals (areas : List (String × ℕ)) (c : String) (a : String)
    (h : a ∈ areas.map Prod.fst) : lookupA (areas.map (fun p => (p.1, c))) a = some c := by
  induction areas with
  | nil => simp at h
  | cons p l ih =>
    by_cases hp : p.1 = a
    · simp [lookupA, hp]
    · rcases List.mem_cons.mp h with h' | h'
      · exact absurd h'.symm hp
      · simp only [List.map_cons, lookupA, if_neg hp]
        exact ih h'

theorem WF_initTable (areas : List (String × ℕ)) (addFields : List String) :
    WF areas addFields (initTable areas addFields) := by
  refine ⟨by simp [initTable], ?_, ?_⟩
  · intro p hp
    simp only [initTable, List.mem_map] at hp
    obtain ⟨h, _, rfl⟩ := hp
    simp [Function.comp_def]
  · intro p hp q hq pa hpa
    simp only [initTable, List.mem_map] at hp
    obtain ⟨h, _, rfl⟩ := hp
    simp only [List.mem_map] at hq
    obtain ⟨f, _, rfl⟩ := hq
    rw [lookupA_const_vals areas "0" pa.1 (List.mem_map_of_mem _ hpa)]
    rfl

theorem initTable_cell (areas : List (String × ℕ)) (addFields : List String)
    (h f a : String) (hh : h ∈ (["1", "2", "3"] : List String))
    (hf : f ∈ fieldList addFields) (ha : a ∈ areas.map Prod.fst) :
    tableGet (initTable areas addFields) h f a = some "0" := by
  unfold tableGet initTable
  rw [lookupA_map_graph _ _ _ hh]
  simp only [Option.some_bind]
  rw [lookupA_map_graph _ _ _ hf]
  simp only [Option.some_bind]
  exact lookupA_const_vals areas "0" a ha

theorem WF_tableSet (areas : List (String × ℕ)) (addFields : List String) (t : Table)
    (h f a v : String) (hwf : WF areas addFields t) :
    WF areas addFields (tableSet t h f a v) := by
  obtain ⟨hk, hf2, hc⟩ := hwf
  refine ⟨?_, ?_, ?_⟩
  · rw [tableSet, modifyA_keys]
    exact hk
  · intro p hp
    rcases mem_modifyA _ _ _ _ hp with hp' | ⟨d, hd, rfl⟩
    · exact hf2 p hp'
    · simp only
      rw [modifyA_keys]
      exact hf2 d hd
  · intro p hp q hq pa hpa
    rcases mem_modifyA _ _ _ _ hp with hp' | ⟨d, hd, rfl⟩
    · exact hc p hp' q hq pa hpa
    · simp only at hq
      rcases mem_modifyA _ _ _ _ hq with hq' | ⟨e, he, rfl⟩
      · exact hc d hd q hq' pa hpa
      · simp only
        by_cases hpa2 : pa.1 = a
        · rw [hpa2, lookupA_setA_self]
          rfl
        · rw [lookupA_setA_ne _ _ _ _ hpa2]
          exact hc d hd e he pa hpa

theorem AC_initTable (areas : List (String × ℕ)) (addFields : List String) :
    AllCellsFmt (initTable areas addFields) := by
  intro p hp q hq c hc
  simp only [initTable, List.mem_map] at hp
  obtain ⟨h, _, rfl⟩ := hp
  simp only [List.mem_map] at hq
  obtain ⟨f, _, rfl⟩ := hq
  simp only [List.mem_map] at hc
  obtain ⟨pa, _, rfl⟩ := hc
  exact Or.inl rfl

theorem AC_tableSet (t : Table) (h f a v : String)
    (hv : v = "0" ∨ ∃ x : ℚ, v = pyFormatE2 x) (hac : AllCellsFmt t) :
    AllCellsFmt (tableSet t h f a v) := by
  intro p hp q hq c hc
  rcases mem_modifyA _ _ _ _ hp with hp' | ⟨d, hd, rfl⟩
  · exact hac p hp' q hq c hc
  · simp only at hq
    rcases mem_modifyA _ _ _ _ hq with hq' | ⟨e, he, rfl⟩
    · exact hac d hd q hq' c hc
    · simp only at hc
      rcases mem_setA _ _ _ _ hc with hc' | hcv
      · exact hac d hd e he c hc'
      · rw [hcv]
        exact hv

/-! ### Cell tracking through writes -/

theorem fieldCellValue_none_find (r : PRecord) (f : String) (h : r.find f = none) :
    fieldCellValue r f = some "0" := by
  unfold fieldCellValue
  rw [h]

theorem fieldCellValue_some_find (r : PRecord) (f : String) (txt : Option String)
    (h : r.find f = some txt) :
    fieldCellValue r f = (pyFloatOfText txt).map pyFormatE2 := by
  unfold fieldCellValue
  rw [h]

theorem tableGet_tableSet_self (t : Table) (h f a v : String) (hm : HemiMap) (fm : FieldMap)
    (h1 : lookupA t h = some hm) (h2 : lookupA hm f = some fm) :
    tableGet (tableSet t h f a v) h f a = some v := by
  unfold tableGet tableSet
  rw [lookupA_modifyA_self, h1]
  simp only [Option.map_some', Option.some_bind]
  rw [lookupA_modifyA_self, h2]
  simp only [Option.map_some', Option.some_bind]
  exact lookupA_setA_self fm a v

theorem tableGet_tableSet_ne (t : Table) (h f a v h' f' a' : String)
    (hne : h' ≠ h ∨ f' ≠ f ∨ a' ≠ a) :
    tableGet (tableSet t h f a v) h' f' a' = tableGet t h' f' a' := by
  unfold tableGet tableSet
  by_cases hh : h' = h
  · subst hh
    rw [lookupA_modifyA_self]
    cases hl : lookupA t h' with
    | none => rfl
    | some hm =>
      simp only [Option.map_some', Option.some_bind]
      by_cases hf : f' = f
      · subst hf
        rw [lookupA_modifyA_self]
        cases hl2 : lookupA hm f' with
        | none => rfl
        | some fm =>
          simp only [Option.map_some', Option.some_bind]
          rcases hne with hne | hne | hne
          · exact absurd rfl hne
          · exact absurd rfl hne
          · exact lookupA_setA_ne fm a a' v hne
      · rw [lookupA_modifyA_ne _ _ _ _ hf]
  · rw [lookupA_modifyA_ne _ _ _ _ hh]

theorem subMap_tableSet_isSome (t : Table) (h0 f0 a v h f : String) :
    (subMap (tableSet t h0 f0 a v) h f).isSome = (subMap t h f).isSome := by
  unfold subMap tableSet
  by_cases hh : h = h0
  · subst hh
    rw [lookupA_modifyA_self]
    cases hl : lookupA t h with
    | none => rfl
    | some hm =>
      simp only [Option.map_some', Option.some_bind]
      by_cases hf : f = f0
      · subst hf
        rw [lookupA_modifyA_self]
        cases hl2 : lookupA hm f <;> rfl
      · rw [lookupA_modifyA_ne _ _ _ _ hf]
  · rw [lookupA_modifyA_ne _ _ _ _ hh]

theorem setFields_none_of_bad (fields : List String) (t : Table) (h a : String)
    (r : PRecord) (f : String) (hf : f ∈ fields) (hbad : fieldCellValue r f = none) :
    setFields fields t h a r = none := by
  induction fields generalizing t with
  | nil => simp at hf
  | cons g rest ih =>
    cases hv : fieldCellValue r g with
    | none =>
      exact foldOptM_cons_none _ _ _ _ (by rw [hv]; rfl)
    | some v =>
      rw [setFields, foldOptM_cons_some _ _ (tableSet t h g a v) _ _ (by rw [hv]; rfl)]
      rcases List.mem_cons.mp hf with hfg | hfr
      · rw [hfg] at hbad
        rw [hbad] at hv
        cases hv
      · exact ih (tableSet t h g a v) hfr

theorem setFields_get_other (fields : List String) (t t' : Table) (h a : String)
    (r : PRecord) (h' f' a' : String) (hs : setFields fields t h a r = some t')
    (hne : h' ≠ h ∨ a' ≠ a ∨ f' ∉ fields) :
    tableGet t' h' f' a' = tableGet t h' f' a' := by
  induction fields generalizing t with
  | nil =>
    rw [setFields, foldOptM_nil] at hs
    cases hs
    rfl
  | cons g rest ih =>
    cases hv : fieldCellValue r g with
    | none =>
      rw [setFields, foldOptM_cons_none _ _ _ _ (by rw [hv]; rfl)] at hs
      cases hs
    | some v =>
      rw [setFields, foldOptM_cons_some _ _ (tableSet t h g a v) _ _ (by rw [hv]; rfl)] at hs
      have hstep : tableGet (tableSet t h g a v) h' f' a' = tableGet t h' f' a' := by
        refine tableGet_tableSet_ne _ _ _ _ _ _ _ _ ?_
        rcases hne with hne | hne | hne
        · exact Or.inl hne
        · exact Or.inr (Or.inr hne)
        · exact Or.inr (Or.inl (fun hfg => hne (hfg ▸ List.mem_cons_self g rest)))
      have hrest : tableGet t' h' f' a' = tableGet (tableSet t h g a v) h' f' a' := by
        refine ih (tableSet t h g a v) hs ?_
        rcases hne with hne | hne | hne
        · exact Or.inl hne
        · exact Or.inr (Or.inl hne)
        · exact Or.inr (Or.inr (fun hfr => hne (List.mem_cons_of_mem _ hfr)))
      rw [hrest, hstep]

theorem setFields_get_mem (fields : List String) (t t' : Table) (h a : String)
    (r : PRecord) (f : String) (hs : setFields fields t h a r = some t') (hf : f ∈ fields)
    (hpres : (subMap t h f).isSome = true) :
    tableGet t' h f a = fieldCellValue r f := by
  induction fields generalizing t with
  | nil => simp at hf
  | cons g rest ih =>
    cases hv : fieldCellValue r g with
    | none =>
      rw [setFields, foldOptM_cons_none _ _ _ _ (by rw [hv]; rfl)] at hs
      cases hs
    | some v =>
      rw [setFields, foldOptM_cons_some _ _ (tableSet t h g a v) _ _ (by rw [hv]; rfl)] at hs
      by_cases hfr : f ∈ rest
      · refine ih (tableSet t h g a v) hs hfr ?_
        rw [subMap_tableSet_isSome]
        exact hpres
      · have hfg : f = g := by
          rcases List.mem_cons.mp hf with hfg | hfr2
          · exact hfg
          · exact absurd hfr2 hfr
        subst hfg
        obtain ⟨hm, hhm⟩ : ∃ hm, lookupA t h = some hm := by
          cases hl : lookupA t h with
          | none => rw [subMap, hl] at hpres; simp at hpres
          | some hm => exact ⟨hm, rfl⟩
        obtain ⟨fm, hfm⟩ : ∃ fm, lookupA hm f = some fm := by
          cases hl : lookupA hm f with
          | none => rw [subMap, hhm] at hpres; simp [hl] at hpres
          | some fm => exact ⟨fm, rfl⟩
        have hset : tableGet (tableSet t h f a v) h f a = some v :=
          tableGet_tableSet_self t h f a v hm fm hhm hfm
        have hrest : tableGet t' h f a = tableGet (tableSet t h f a v) h f a :=
          setFields_get_other rest (tableSet t h f a v) t' h a r h f a hs
            (Or.inr (Or.inr hfr))
        rw [hrest, hset, hv]

theorem WF_setFields (areas : List (String × ℕ)) (addFields : List String)
    (fields : List String) (t t' : Table) (h a : String) (r : PRecord)
    (hs : setFields fields t h a r = some t') (hwf : WF areas addFields t) :
    WF areas addFields t' := by
  refine foldOptM_preserves (WF areas addFields) _ fields ?_ t t' hs hwf
  intro g _ tc tn hstep hwfc
  cases hv : fieldCellValue r g with
  | none => rw [hv] at hstep; cases hstep
  | some v =>
    rw [hv] at hstep
    simp only [Option.map_some'] at hstep
    cases hstep
    exact WF_tableSet areas addFields tc h g a v hwfc

theorem AC_setFields (fields : List String) (t t' : Table) (h a : String) (r : PRecord)
    (hs : setFields fields t h a r = some t') (hac : AllCellsFmt t) : AllCellsFmt t' := by
  refine foldOptM_preserves AllCellsFmt _ fields ?_ t t' hs hac
  intro g _ tc tn hstep hacc
  cases hv : fieldCellValue r g with
  | none => rw [hv] at hstep; cases hstep
  | some v =>
    rw [hv] at hstep
    simp only [Option.map_some'] at hstep
    cases hstep
    refine AC_tableSet tc h g a v ?_ hacc
    cases hfind : r.find g with
    | none =>
      rw [fieldCellValue_none_find r g hfind] at hv
      cases hv
      exact Or.inl rfl
    | some txt =>
      rw [fieldCellValue_some_find r g txt hfind] at hv
      cases hp : pyFloatOfText txt with
      | none => rw [hp] at hv; cases hv
      | some x =>
        rw [hp] at hv
        simp only [Option.map_some'] at hv
        cases hv
        exact Or.inr ⟨x, rfl⟩

/-! ### Record processing lemmas -/

theorem areaStep_get_other (r : PRecord) (sTxt : Option String) (h : String)
    (tc tn : Table) (p : String × ℕ) (hstep : areaStep r sTxt h tc p = some tn)
    (h' f' a' : String)
    (hne : h' ≠ h ∨ a' ≠ p.1 ∨ sTxt ≠ some (toString p.2)) :
    tableGet tn h' f' a' = tableGet tc h' f' a' := by
  unfold areaStep at hstep
  split at hstep
  · rename_i hcond
    split at hstep
    · cases hstep
    · refine setFields_get_other _ _ _ _ _ _ _ _ _ hstep ?_
      rcases hne with hne | hne | hne
      · exact Or.inl hne
      · exact Or.inr (Or.inl hne)
      · exact absurd hcond hne
  · cases hstep
    rfl

theorem areaStep_WF (areas : List (String × ℕ)) (addFields : List String) (r : PRecord)
    (sTxt : Option String) (h : String) (tc tn : Table) (p : String × ℕ)
    (hstep : areaStep r sTxt h tc p = some tn) (hwf : WF areas addFields tc) :
    WF areas addFields tn := by
  unfold areaStep at hstep
  split at hstep
  · split at hstep
    · cases hstep
    · exact WF_setFields areas addFields _ tc tn h p.1 r hstep hwf
  · cases hstep
    exact hwf

theorem areaStep_AC (r : PRecord) (sTxt : Option String) (h : String) (tc tn : Table)
    (p : String × ℕ) (hstep : areaStep r sTxt h tc p = some tn) (hac : AllCellsFmt tc) :
    AllCellsFmt tn := by
  unfold areaStep at hstep
  split at hstep
  · split at hstep
    · cases hstep
    · exact AC_setFields _ tc tn h p.1 r hstep hac
  · cases hstep
    exact hac

theorem areaStep_get_match (areas : List (String × ℕ)) (addFields : List String)
    (r : PRecord) (sTxt : Option String) (h : String) (tc tn : Table) (p : String × ℕ)
    (f : String) (hstep : areaStep r sTxt h tc p = some tn)
    (hcond : sTxt = some (toString p.2)) (hwf : WF areas addFields tc)
    (hf : f ∈ fieldList addFields) :
    tableGet tn h f p.1 = fieldCellValue r f := by
  unfold areaStep at hstep
  rw [if_pos hcond] at hstep
  split at hstep
  · cases hstep
  · rename_i hm heq
    have hfields : hm.map Prod.fst = fieldList addFields :=
      hwf.2.1 (h, hm) (lookupA_mem _ _ _ heq)
    refine setFields_get_mem _ tc tn h p.1 r f hstep ?_ ?_
    · rw [hfields]
      exact hf
    · unfold subMap
      rw [heq]
      simp only [Option.some_bind]
      apply lookupA_isSome_of_mem_keys
      rw [hfields]
      exact hf

theorem fold_areaStep_match (areas : List (String × ℕ)) (addFields : List String)
    (r : PRecord) (sTxt : Option String) (h a f : String) :
    ∀ (l : List (String × ℕ)) (t t' : Table), WF areas addFields t →
      (∃ p ∈ l, p.1 = a ∧ sTxt = some (toString p.2)) →
      foldOptM (areaStep r sTxt h) t l = some t' →
      f ∈ fieldList addFields →
      tableGet t' h f a = fieldCellValue r f := by
  intro l
  induction l with
  | nil =>
    intro t t' _ hex _ _
    simp at hex
  | cons p l ih =>
    intro t t' hwf hex hfold hf
    cases hstep : areaStep r sTxt h t p with
    | none =>
      rw [foldOptM_cons_none _ _ _ _ hstep] at hfold
      cases hfold
    | some t1 =>
      rw [foldOptM_cons_some _ _ t1 _ _ hstep] at hfold
      have hwf1 : WF areas addFields t1 :=
        areaStep_WF areas addFields r sTxt h t t1 p hstep hwf
      by_cases hcp : sTxt = some (toString p.2) ∧ p.1 = a
      · have hcell1 : tableGet t1 h f a = fieldCellValue r f := by
          have hx := areaStep_get_match areas addFields r sTxt h t t1 p f hstep hcp.1 hwf hf
          rw [hcp.2] at hx
          exact hx
        refine (foldOptM_preserves
          (fun tt => WF areas addFields tt ∧ tableGet tt h f a = fieldCellValue r f)
          _ l ?_ t1 t' hfold ⟨hwf1, hcell1⟩).2
        intro q hq tc tn hstepq hPc
        obtain ⟨hwfc, hcellc⟩ := hPc
        refine ⟨areaStep_WF areas addFields r sTxt h tc tn q hstepq hwfc, ?_⟩
        by_cases hcq : sTxt = some (toString q.2) ∧ q.1 = a
        · have hx := areaStep_get_match areas addFields r sTxt h tc tn q f hstepq hcq.1 hwfc hf
          rw [hcq.2] at hx
          exact hx
        · rw [← hcellc]
          refine areaStep_get_other r sTxt h tc tn q hstepq h f a ?_
          by_cases hc2 : sTxt = some (toString q.2)
          · refine Or.inr (Or.inl ?_)
            intro haq
            exact hcq ⟨hc2, haq.symm⟩
          · exact Or.inr (Or.inr hc2)
      · obtain ⟨pw, hpw, hpwa, hpwc⟩ := hex
        have hpwl : pw ∈ l := by
          rcases List.mem_cons.mp hpw with rfl | h'
          · exact absurd ⟨hpwc, hpwa⟩ hcp
          · exact h'
        exact ih t1 t' hwf1 ⟨pw, hpwl, hpwa, hpwc⟩ hfold hf

theorem fold_areaStep_bad (areas : List (String × ℕ)) (addFields : List String)
    (r : PRecord) (sTxt : Option String) (h : String) (fbad : String)
    (hfbad : fbad ∈ fieldList addFields) (hbad : fieldCellValue r fbad = none) :
    ∀ (l : List (String × ℕ)) (t : Table), WF areas addFields t →
      (∃ p ∈ l, sTxt = some (toString p.2)) →
      foldOptM (areaStep r sTxt h) t l = none := by
  intro l
  induction l with
  | nil =>
    intro t _ hex
    simp at hex
  | cons p l ih =>
    intro t hwf hex
    by_cases hc : sTxt = some (toString p.2)
    · have hstep : areaStep r sTxt h t p = none := by
        unfold areaStep
        rw [if_pos hc]
        cases hlk : lookupA t h with
        | none => rfl
        | some hm =>
          have hfields : hm.map Prod.fst = fieldList addFields :=
            hwf.2.1 (h, hm) (lookupA_mem _ _ _ hlk)
          exact setFields_none_of_bad _ t h p.1 r fbad (by rw [hfields]; exact hfbad) hbad
      exact foldOptM_cons_none _ _ _ _ hstep
    · have hstep : areaStep r sTxt h t p = some t := by
        unfold areaStep
        rw [if_neg hc]
      rw [foldOptM_cons_some _ _ t _ _ hstep]
      obtain ⟨pw, hpw, hpwc⟩ := hex
      have hpwl : pw ∈ l := by
        rcases List.mem_cons.mp hpw with rfl | h'
        · exact absurd hpwc hc
        · exact h'
      exact ih t hwf ⟨pw, hpwl, hpwc⟩

theorem WF_processRecord (areas : List (String × ℕ)) (addFields : List String)
    (t t' : Table) (r : PRecord) (hs : processRecord areas t r = some t')
    (hwf : WF areas addFields t) : WF areas addFields t' := by
  unfold processRecord at hs
  split at hs
  · split at hs
    · cases hs
      exact hwf
    · split at hs
      · cases hs
        exact hwf
      · refine foldOptM_preserves (WF areas addFields) _ areas ?_ t t' hs hwf
        intro p _ tc tn hstep hwfc
        exact areaStep_WF areas addFields _ _ _ tc tn p hstep hwfc
  · cases hs
    exact hwf

theorem AC_processRecord (areas : List (String × ℕ)) (t t' : Table) (r : PRecord)
    (hs : processRecord areas t r = some t') (hac : AllCellsFmt t) : AllCellsFmt t' := by
  unfold processRecord at hs
  split at hs
  · split at hs
    · cases hs
      exact hac
    · split at hs
      · cases hs
        exact hac
      · refine foldOptM_preserves AllCellsFmt _ areas ?_ t t' hs hac
        intro p _ tc tn hstep hacc
        exact areaStep_AC _ _ _ tc tn p hstep hacc
  · cases hs
    exact hac

theorem processRecord_get_nomatch (areas : List (String × ℕ)) (t t' : Table) (r : PRecord)
    (h a f : String) (hs : processRecord areas t r = some t')
    (hnm : ¬ recMatches areas r h a) :
    tableGet t' h f a = tableGet t h f a := by
  cases hfh : r.find "hemisphere-id" with
  | none =>
    have hc : processRecord areas t r = some t := by
      unfold processRecord
      rw [hfh]
    rw [hc] at hs
    cases hs
    rfl
  | some hTxt =>
    cases hfs : r.find "structure-id" with
    | none =>
      have hc : processRecord areas t r = some t := by
        unfold processRecord
        rw [hfh, hfs]
      rw [hc] at hs
      cases hs
      rfl
    | some sTxt =>
      cases hTxt with
      | none =>
        have hc : processRecord areas t r = some t := by
          unfold processRecord
          rw [hfh, hfs]
        rw [hc] at hs
        cases hs
        rfl
      | some h0 =>
        cases hlk : lookupA t h0 with
        | none =>
          have hc : processRecord areas t r = some t := by
            unfold processRecord
            rw [hfh, hfs]
            show (match lookupA t h0 with
              | none => some t
              | some _ => foldOptM (areaStep r sTxt h0) t areas) = some t
            rw [hlk]
          rw [hc] at hs
          cases hs
          rfl
        | some hm0 =>
          have hc : processRecord areas t r = foldOptM (areaStep r sTxt h0) t areas := by
            unfold processRecord
            rw [hfh, hfs]
            show (match lookupA t h0 with
              | none => some t
              | some _ => foldOptM (areaStep r sTxt h0) t areas) =
              foldOptM (areaStep r sTxt h0) t areas
            rw [hlk]
          rw [hc] at hs
          refine foldOptM_preserves (fun tt => tableGet tt h f a = tableGet t h f a)
            _ areas ?_ t t' hs rfl
          intro p hp tc tn hstep hPc
          rw [← hPc]
          refine areaStep_get_other r sTxt h0 tc tn p hstep h f a ?_
          by_cases hh : h0 = h
          · subst hh
            by_cases hc2 : sTxt = some (toString p.2)
            · refine Or.inr (Or.inl ?_)
              intro hap
              exact hnm ⟨hfh, p, hp, hap.symm, by rw [hfs, hc2]⟩
            · exact Or.inr (Or.inr hc2)
          · exact Or.inl (fun hx => hh hx.symm)

theorem processRecord_get_match (areas : List (String × ℕ)) (addFields : List String)
    (t t' : Table) (r : PRecord) (h a f : String)
    (hs : processRecord areas t r = some t') (hmt : recMatches areas r h a)
    (hwf : WF areas addFields t) (hh : h ∈ (["1", "2", "3"] : List String))
    (hf : f ∈ fieldList addFields) :
    tableGet t' h f a = fieldCellValue r f := by
  obtain ⟨hfh, p0, hp0, hp0a, hfs⟩ := hmt
  have hks : h ∈ t.map Prod.fst := by
    rw [hwf.1]
    exact hh
  obtain ⟨hm0, hlk⟩ : ∃ x, lookupA t h = some x := by
    have hx := lookupA_isSome_of_mem_keys t h hks
    cases hl : lookupA t h with
    | none => rw [hl] at hx; simp at hx
    | some x => exact ⟨x, rfl⟩
  have hc : processRecord areas t r = foldOptM (areaStep r (some (toString p0.2)) h) t areas := by
    unfold processRecord
    rw [hfh, hfs]
    show (match lookupA t h with
      | none => some t
      | some _ => foldOptM (areaStep r (some (toString p0.2)) h) t areas) =
      foldOptM (areaStep r (some (toString p0.2)) h) t areas
    rw [hlk]
  rw [hc] at hs
  exact fold_areaStep_match areas addFields r _ h a f areas t t' hwf ⟨p0, hp0, hp0a, rfl⟩ hs hf

theorem processRecord_match_none (areas : List (String × ℕ)) (addFields : List String)
    (t : Table) (r : PRecord) (h a fbad : String) (txt : Option String)
    (hmt : recMatches areas r h a) (hwf : WF areas addFields t)
    (hh : h ∈ (["1", "2", "3"] : List String)) (hfbad : fbad ∈ fieldList addFields)
    (hfind : r.find fbad = some txt) (hpf : pyFloatOfText txt = none) :
    processRecord areas t r = none := by
  obtain ⟨hfh, p0, hp0, hp0a, hfs⟩ := hmt
  have hks : h ∈ t.map Prod.fst := by
    rw [hwf.1]
    exact hh
  obtain ⟨hm0, hlk⟩ : ∃ x, lookupA t h = some x := by
    have hx := lookupA_isSome_of_mem_keys t h hks
    cases hl : lookupA t h with
    | none => rw [hl] at hx; simp at hx
    | some x => exact ⟨x, rfl⟩
  have hc : processRecord areas t r = foldOptM (areaStep r (some (toString p0.2)) h) t areas := by
    unfold processRecord
    rw [hfh, hfs]
    show (match lookupA t h with
      | none => some t
      | some _ => foldOptM (areaStep r (some (toString p0.2)) h) t areas) =
      foldOptM (areaStep r (some (toString p0.2)) h) t areas
    rw [hlk]
  rw [hc]
  have hbad : fieldCellValue r fbad = none := by
    rw [fieldCellValue_some_find r fbad txt hfind, hpf]
    rfl
  exact fold_areaStep_bad areas addFields r _ h fbad hfbad hbad areas t hwf ⟨p0, hp0, rfl⟩

/-! ### Extraction-level lemmas -/

theorem injectionScanStep_shape (filename : String) (vispVals : List ℕ)
    (acc acc' : List Site × Bool) (r : PRecord)
    (hstep : injectionScanStep filename vispVals acc r = some acc') :
    acc' = acc ∨ ∃ h' s', acc' = (acc.1 ++ [(filename, h', s')], true) := by
  unfold injectionScanStep at hstep
  split at hstep
  · split at hstep
    · dsimp only at hstep
      split at hstep
      · cases hstep
        right
        exact ⟨_, _, rfl⟩
      · cases hstep
        left
        rfl
    · cases hstep
  · cases hstep
    left
    rfl

theorem injectionScan_found_iff (filename : String) (vispVals : List ℕ)
    (doc : List PRecord) (es : List Site) (found : Bool)
    (hscan : injectionScan filename vispVals doc = some (es, found)) :
    found = true ↔ es ≠ [] := by
  unfold injectionScan at hscan
  have hP := foldOptM_preserves
    (fun acc : List Site × Bool => acc.2 = true ↔ acc.1 ≠ [])
    (injectionScanStep filename vispVals) doc ?_ ([], false) (es, found) hscan (by simp)
  · exact hP
  · intro r _ acc acc' hstep hPc
    rcases injectionScanStep_shape filename vispVals acc acc' r hstep with rfl | ⟨h', s', rfl⟩
    · exact hPc
    · simp

theorem extract_parts (filename : String) (doc : List PRecord)
    (areas : List (String × ℕ)) (addFields : List String) (fn : String) (t : Table)
    (sites : List Site)
    (hx : extract_projection_data filename doc areas addFields = some (fn, t, sites)) :
    fn = filename ∧
    foldOptM (processRecord areas) (initTable areas addFields) doc = some t ∧
    ∃ vispId es found, lookupA areas "VISp" = some vispId ∧
      injectionScan filename [vispId] doc = some (es, found) ∧
      sites = (if found then es
        else es ++ [(filename, infer_injection_hemisphere t, "inferred")]) := by
  unfold extract_projection_data at hx
  cases hfold : foldOptM (processRecord areas) (initTable areas addFields) doc with
  | none => rw [hfold] at hx; cases hx
  | some t0 =>
    rw [hfold] at hx
    simp only [Option.some_bind] at hx
    cases hvisp : lookupA areas "VISp" with
    | none => rw [hvisp] at hx; cases hx
    | some vid =>
      rw [hvisp] at hx
      simp only [Option.some_bind] at hx
      cases hscan : injectionScan filename [vid] doc with
      | none => rw [hscan] at hx; cases hx
      | some esf =>
        rw [hscan] at hx
        simp only [Option.some_bind] at hx
        obtain ⟨es, found⟩ := esf
        cases found with
        | true =>
          rw [if_pos rfl] at hx
          simp only [Option.some.injEq, Prod.mk.injEq] at hx
          obtain ⟨h1, h2, h3⟩ := hx
          subst h1; subst h2; subst h3
          exact ⟨rfl, rfl, vid, es, true, rfl, hscan, by simp⟩
        | false =>
          rw [if_neg (by simp)] at hx
          simp only [Option.some.injEq, Prod.mk.injEq] at hx
          obtain ⟨h1, h2, h3⟩ := hx
          subst h1; subst h2; subst h3
          exact ⟨rfl, rfl, vid, es, false, rfl, hscan, by simp⟩

theorem WF_extract (filename : String) (doc : List PRecord) (areas : List (String × ℕ))
    (addFields : List String) (fn : String) (t : Table) (sites : List Site)
    (hx : extract_projection_data filename doc areas addFields = some (fn, t, sites)) :
    WF areas addFields t := by
  obtain ⟨-, hfold, -⟩ := extract_parts filename doc areas addFields fn t sites hx
  refine foldOptM_preserves (WF areas addFields) _ doc ?_ _ _ hfold
    (WF_initTable areas addFields)
  intro r _ tc tn hstep hwfc
  exact WF_processRecord areas addFields tc tn r hstep hwfc

theorem AC_extract (filename : String) (doc : List PRecord) (areas : List (String × ℕ))
    (addFields : List String) (fn : String) (t : Table) (sites : List Site)
    (hx : extract_projection_data filename doc areas addFields = some (fn, t, sites)) :
    AllCellsFmt t := by
  obtain ⟨-, hfold, -⟩ := extract_parts filename doc areas addFields fn t sites hx
  refine foldOptM_preserves AllCellsFmt _ doc ?_ _ _ hfold (AC_initTable areas addFields)
  intro r _ tc tn hstep hacc
  exact AC_processRecord areas tc tn r hstep hacc

theorem WF_tableGet_isSome (areas : List (String × ℕ)) (addFields : List String)
    (t : Table) (h f a : String) (hwf : WF areas addFields t)
    (hh : h ∈ (["1", "2", "3"] : List String)) (hf : f ∈ fieldList addFields)
    (ha : a ∈ areas.map Prod.fst) : (tableGet t h f a).isSome = true := by
  obtain ⟨hm, hlk⟩ : ∃ x, lookupA t h = some x := by
    have hx := lookupA_isSome_of_mem_keys t h (by rw [hwf.1]; exact hh)
    cases hl : lookupA t h with
    | none => rw [hl] at hx; simp at hx
    | some x => exact ⟨x, rfl⟩
  have hfields : hm.map Prod.fst = fieldList addFields :=
    hwf.2.1 (h, hm) (lookupA_mem _ _ _ hlk)
  obtain ⟨fm, hlk2⟩ : ∃ x, lookupA hm f = some x := by
    have hx := lookupA_isSome_of_mem_keys hm f (by rw [hfields]; exact hf)
    cases hl : lookupA hm f with
    | none => rw [hl] at hx; simp at hx
    | some x => exact ⟨x, rfl⟩
  obtain ⟨pa, hpa, rfl⟩ := List.mem_map.mp ha
  have hcell := hwf.2.2 (h, hm) (lookupA_mem _ _ _ hlk) (f, fm) (lookupA_mem _ _ _ hlk2)
    pa hpa
  unfold tableGet
  rw [hlk]
  simp only [Option.some_bind]
  rw [hlk2]
  simp only [Option.some_bind]
  exact hcell

/-- Last write wins: the cell of (h, a) after extraction equals the value
contributed by the last record matching (h, a) in document order. -/
theorem extract_cell_last (filename : String) (doc1 : List PRecord) (r : PRecord)
    (doc2 : List PRecord) (areas : List (String × ℕ)) (addFields : List String)
    (fn : String) (t : Table) (sites : List Site) (h a f : String)
    (hx : extract_projection_data filename (doc1 ++ r :: doc2) areas addFields =
      some (fn, t, sites))
    (hh : h ∈ (["1", "2", "3"] : List String)) (hf : f ∈ fieldList addFields)
    (hmt : recMatches areas r h a) (hnm2 : ∀ r' ∈ doc2, ¬ recMatches areas r' h a) :
    tableGet t h f a = fieldCellValue r f := by
  obtain ⟨-, hfold, -⟩ := extract_parts _ _ _ _ _ _ _ hx
  rw [foldOptM_append] at hfold
  cases hmid : foldOptM (processRecord areas) (initTable areas addFields) doc1 with
  | none => rw [hmid] at hfold; cases hfold
  | some tmid =>
    rw [hmid] at hfold
    simp only [Option.some_bind] at hfold
    have hwfmid : WF areas addFields tmid := by
      refine foldOptM_preserves (WF areas addFields) _ doc1 ?_ _ _ hmid
        (WF_initTable areas addFields)
      intro r' _ tc tn hstep hwfc
      exact WF_processRecord areas addFields tc tn r' hstep hwfc
    cases hr : processRecord areas tmid r with
    | none => rw [foldOptM_cons_none _ _ _ _ hr] at hfold; cases hfold
    | some tr =>
      rw [foldOptM_cons_some _ _ tr _ _ hr] at hfold
      have hwfr : WF areas addFields tr := WF_processRecord areas addFields tmid tr r hr hwfmid
      have hcellr : tableGet tr h f a = fieldCellValue r f :=
        processRecord_get_match areas addFields tmid tr r h a f hr hmt hwfmid hh hf
      have hP := foldOptM_preserves
        (fun tt => WF areas addFields tt ∧ tableGet tt h f a = fieldCellValue r f)
        (processRecord areas) doc2 ?_ tr t hfold ⟨hwfr, hcellr⟩
      · exact hP.2
      · intro r' hr' tc tn hstep hPc
        obtain ⟨hwfc, hcellc⟩ := hPc
        refine ⟨WF_processRecord areas addFields tc tn r' hstep hwfc, ?_⟩
        rw [processRecord_get_nomatch areas tc tn r' h a f hstep (hnm2 r' hr')]
        exact hcellc

/-- A matching record carrying a measured field whose text does not parse
makes the whole extraction raise. -/
theorem extract_bad_field_none (filename : String) (doc1 : List PRecord) (r : PRecord)
    (doc2 : List PRecord) (areas : List (String × ℕ)) (addFields : List String)
    (h a fbad : String) (txt : Option String)
    (hh : h ∈ (["1", "2", "3"] : List String)) (hfbad : fbad ∈ fieldList addFields)
    (hmt : recMatches areas r h a) (hfind : r.find fbad = some txt)
    (hpf : pyFloatOfText txt = none) :
    extract_projection_data filename (doc1 ++ r :: doc2) areas addFields = none := by
  unfold extract_projection_data
  rw [foldOptM_append]
  cases hmid : foldOptM (processRecord areas) (initTable areas addFields) doc1 with
  | none => rfl
  | some tmid =>
    simp only [Option.some_bind]
    have hwfmid : WF areas addFields tmid := by
      refine foldOptM_preserves (WF areas addFields) _ doc1 ?_ _ _ hmid
        (WF_initTable areas addFields)
      intro r' _ tc tn hstep hwfc
      exact WF_processRecord areas addFields tc tn r' hstep hwfc
    have hr : processRecord areas tmid r = none :=
      processRecord_match_none areas addFields tmid r h a fbad txt hmt hwfmid hh hfbad
        hfind hpf
    rw [foldOptM_cons_none _ _ _ _ hr]
    rfl

/-- Cells no record writes stay at the default "0". -/
theorem extract_cell_zero (filename : String) (doc : List PRecord)
    (areas : List (String × ℕ)) (addFields : List String) (fn : String) (t : Table)
    (sites : List Site) (h a f : String)
    (hx : extract_projection_data filename doc areas addFields = some (fn, t, sites))
    (hh : h ∈ (["1", "2", "3"] : List String)) (hf : f ∈ fieldList addFields)
    (ha : a ∈ areas.map Prod.fst)
    (habsent : ∀ r ∈ doc, recMatches areas r h a → r.find f = none) :
    tableGet t h f a = some "0" := by
  obtain ⟨-, hfold, -⟩ := extract_parts _ _ _ _ _ _ _ hx
  have hP := foldOptM_preserves
    (fun tt => WF areas addFields tt ∧ tableGet tt h f a = some "0")
    (processRecord areas) doc ?_ _ _ hfold
    ⟨WF_initTable areas addFields, initTable_cell areas addFields h f a hh hf ha⟩
  · exact hP.2
  · intro r hr tc tn hstep hPc
    obtain ⟨hwfc, hcellc⟩ := hPc
    refine ⟨WF_processRecord areas addFields tc tn r hstep hwfc, ?_⟩
    by_cases hmt : recMatches areas r h a
    · rw [processRecord_get_match areas addFields tc tn r h a f hstep hmt hwfc hh hf]
      rw [fieldCellValue_none_find r f (habsent r hr hmt)]
    · rw [processRecord_get_nomatch areas tc tn r h a f hstep hmt]
      exact hcellc

/-! ### Score lemmas -/

theorem pyFloatList_isSome (l : List String) (h : ∀ v ∈ l, (pyFloat v).isSome = true) :
    ∃ qs, pyFloatList l = some qs := by
  induction l with
  | nil => exact ⟨[], rfl⟩
  | cons s l ih =>
    obtain ⟨q, hq⟩ := Option.isSome_iff_exists.mp (h s (List.mem_cons_self _ _))
    obtain ⟨qs, hqs⟩ := ih (fun v hv => h v (List.mem_cons_of_mem _ hv))
    refine ⟨q :: qs, ?_⟩
    unfold pyFloatList
    rw [hq, hqs]

theorem tryScore_eq_subMap (t : Table) (h : String) :
    tryScore t h =
      (subMap t h "projection-volume").bind (fun volMap =>
        (pyFloatList (valuesA volMap)).bind (fun vols =>
          (subMap t h "projection-intensity").bind (fun intMap =>
            (pyFloatList (valuesA intMap)).map (fun ints =>
              vols.sum + (1 / 1000000000) * ints.sum)))) := by
  unfold tryScore subMap
  cases hl : lookupA t h with
  | none => rfl
  | some hm =>
    simp only [Option.some_bind]
    cases h1 : lookupA hm "projection-volume" with
    | none => rfl
    | some volMap =>
      simp only [Option.some_bind]
      cases h2 : pyFloatList (valuesA volMap) with
      | none => rfl
      | some vols =>
        simp only [Option.some_bind]
        cases h3 : lookupA hm "projection-intensity" with
        | none => rfl
        | some intMap =>
          simp only [Option.some_bind]
          cases h4 : pyFloatList (valuesA intMap) <;> rfl

/-! ### Hemisphere swap lemmas -/

theorem swapKey_swapKey (k : String) : swapKey (swapKey k) = k := by
  by_cases h1 : k = "1"
  · subst h1
    decide
  · by_cases h2 : k = "2"
    · subst h2
      decide
    · simp [swapKey, h1, h2]

theorem lookupA_swapHemis (t : Table) (k : String) :
    lookupA (swapHemis t) k = lookupA t (swapKey k) := by
  induction t with
  | nil => rfl
  | cons p t ih =>
    show lookupA ((swapKey p.1, p.2) :: swapHemis t) k = lookupA (p :: t) (swapKey k)
    by_cases hc : swapKey p.1 = k
    · have hc2 : p.1 = swapKey k := by
        rw [← hc, swapKey_swapKey]
      obtain ⟨p1, p2⟩ := p
      simp only [lookupA]
      rw [if_pos hc, if_pos hc2]
    · have hc2 : ¬ p.1 = swapKey k := by
        intro hx
        exact hc (by rw [hx, swapKey_swapKey])
      obtain ⟨p1, p2⟩ := p
      simp only [lookupA]
      rw [if_neg hc, if_neg hc2]
      exact ih

theorem tryScore_swapHemis (t : Table) (k : String) :
    tryScore (swapHemis t) k = tryScore t (swapKey k) := by
  unfold tryScore
  rw [lookupA_swapHemis]

theorem hemiScore_swapHemis (t : Table) (k : String) :
    hemiScore (swapHemis t) k = hemiScore t (swapKey k) := by
  unfold hemiScore
  rw [tryScore_swapHemis]

/-! ### Claim theorems -/

/-- C3: for every hemisphere data table whose hemisphere-1 and hemisphere-2
volume and intensity sub-maps all parse, infer_injection_hemisphere scores
each hemisphere as (sum of projection-volume values) plus 1e-9 times (sum
of projection-intensity values), returns the hemisphere with the strictly
greater score, and returns "unknown" on an exact tie. -/
theorem c3_infer_score_formula :
    ∀ (t : Table) (vm1 im1 vm2 im2 : FieldMap) (vq1 iq1 vq2 iq2 : List ℚ),
      subMap t "1" "projection-volume" = some vm1 →
      pyFloatList (valuesA vm1) = some vq1 →
      subMap t "1" "projection-intensity" = some im1 →
      pyFloatList (valuesA im1) = some iq1 →
      subMap t "2" "projection-volume" = some vm2 →
      pyFloatList (valuesA vm2) = some vq2 →
      subMap t "2" "projection-intensity" = some im2 →
      pyFloatList (valuesA im2) = some iq2 →
      infer_injection_hemisphere t =
        (if vq1.sum + (1 / 1000000000) * iq1.sum > vq2.sum + (1 / 1000000000) * iq2.sum
         then "1"
         else if vq2.sum + (1 / 1000000000) * iq2.sum > vq1.sum + (1 / 1000000000) * iq1.sum
         then "2" else "unknown") := by
  intro t vm1 im1 vm2 im2 vq1 iq1 vq2 iq2 h1 h2 h3 h4 h5 h6 h7 h8
  have hs1 : tryScore t "1" = some (vq1.sum + (1 / 1000000000) * iq1.sum) := by
    rw [tryScore_eq_subMap, h1]
    simp only [Option.some_bind]
    rw [h2]
    simp only [Option.some_bind]
    rw [h3]
    simp only [Option.some_bind]
    rw [h4]
    rfl
  have hs2 : tryScore t "2" = some (vq2.sum + (1 / 1000000000) * iq2.sum) := by
    rw [tryScore_eq_subMap, h5]
    simp only [Option.some_bind]
    rw [h6]
    simp only [Option.some_bind]
    rw [h7]
    simp only [Option.some_bind]
    rw [h8]
    rfl
  unfold infer_injection_hemisphere hemiScore
  rw [hs1, hs2]
  rfl

/-- C3 witness: the score formula instantiated on a concrete table with
hemisphere-1 volume 3 and hemisphere-2 volume 1. -/
theorem c3_infer_score_formula_witness :
    infer_injection_hemisphere scoreTable =
      (if [(3 : ℚ)].sum + (1 / 1000000000) * [(0 : ℚ)].sum >
          [(1 : ℚ)].sum + (1 / 1000000000) * [(0 : ℚ)].sum
       then "1"
       else if [(1 : ℚ)].sum + (1 / 1000000000) * [(0 : ℚ)].sum >
          [(3 : ℚ)].sum + (1 / 1000000000) * [(0 : ℚ)].sum
       then "2" else "unknown") :=
  c3_infer_score_formula scoreTable [("a", "3")] [("a", "0")] [("a", "1")] [("a", "0")]
    [3] [0] [1] [0] (by decide) (by decide) (by decide) (by decide) (by decide)
    (by decide) (by decide) (by decide)

/-- C4 counterexample: in tiltTable, hemisphere-1 total projection-volume
is 1 and hemisphere-2 total projection-volume is 0, yet the function
returns "2", because the huge hemisphere-2 intensity dominates through the
1e-9 weight.  The claim that a strictly greater summed volume alone forces
"1" is therefore false on the code. -/
theorem c4_counterexample_volume_not_decisive :
    ((subMap tiltTable "1" "projection-volume").bind
      (fun fm => pyFloatList (valuesA fm))).map List.sum = some 1 ∧
    ((subMap tiltTable "2" "projection-volume").bind
      (fun fm => pyFloatList (valuesA fm))).map List.sum = some 0 ∧
    (1 : ℚ) > 0 ∧
    infer_injection_hemisphere tiltTable = "2" := by
  refine ⟨by decide, by decide, by decide, by decide⟩

/-- C4 amended: infer_injection_hemisphere returns "1" exactly when the
hemisphere-1 score (summed volume + 1e-9 times summed intensity, 0 on a
raise) strictly exceeds the hemisphere-2 score, "2" in the reverse case,
"unknown" exactly on equal scores; and it is symmetric under swapping the
hemisphere-1 and hemisphere-2 data, with "1" and "2" exchanged and
"unknown" unchanged. -/
theorem c4_amended_score_comparison_and_symmetry :
    ∀ t : Table,
      (infer_injection_hemisphere t = "1" ↔ hemiScore t "1" > hemiScore t "2") ∧
      (infer_injection_hemisphere t = "2" ↔ hemiScore t "2" > hemiScore t "1") ∧
      (infer_injection_hemisphere t = "unknown" ↔ hemiScore t "1" = hemiScore t "2") ∧
      infer_injection_hemisphere (swapHemis t) = swapRes (infer_injection_hemisphere t) := by
  have key : ∀ s1 s2 : ℚ,
      ((if s1 > s2 then "1" else if s2 > s1 then "2" else "unknown") = "1" ↔ s1 > s2) ∧
      ((if s1 > s2 then "1" else if s2 > s1 then "2" else "unknown") = "2" ↔ s2 > s1) ∧
      ((if s1 > s2 then "1" else if s2 > s1 then "2" else "unknown") = "unknown" ↔
        s1 = s2) := by
    intro s1 s2
    rcases lt_trichotomy s1 s2 with h | h | h
    · rw [if_neg (lt_asymm h), if_pos h]
      exact ⟨iff_of_false (by decide) (lt_asymm h), iff_of_true rfl h,
        iff_of_false (by decide) (ne_of_lt h)⟩
    · rw [if_neg (by rw [h]; exact lt_irrefl s2), if_neg (by rw [h]; exact lt_irrefl s2)]
      exact ⟨iff_of_false (by decide) (by rw [h]; exact lt_irrefl s2),
        iff_of_false (by decide) (by rw [h]; exact lt_irrefl s2), iff_of_true rfl h⟩
    · rw [if_pos h]
      exact ⟨iff_of_true rfl h, iff_of_false (by decide) (lt_asymm h),
        iff_of_false (by decide) (ne_of_gt h)⟩
  intro t
  have hinst := key (hemiScore t "1") (hemiScore t "2")
  have hdef : infer_injection_hemisphere t =
      (if hemiScore t "1" > hemiScore t "2" then "1"
       else if hemiScore t "2" > hemiScore t "1" then "2" else "unknown") := rfl
  have hswap : infer_injection_hemisphere (swapHemis t) =
      swapRes (infer_injection_hemisphere t) := by
    have hdefs : infer_injection_hemisphere (swapHemis t) =
        (if hemiScore t "2" > hemiScore t "1" then "1"
         else if hemiScore t "1" > hemiScore t "2" then "2" else "unknown") := by
      unfold infer_injection_hemisphere
      rw [hemiScore_swapHemis, hemiScore_swapHemis]
      have e1 : swapKey "1" = "2" := by decide
      have e2 : swapKey "2" = "1" := by decide
      rw [e1, e2]
    rw [hdefs, hdef]
    rcases lt_trichotomy (hemiScore t "1") (hemiScore t "2") with h | h | h
    · rw [if_pos h, if_neg (lt_asymm h), if_pos h]
      decide
    · rw [if_neg (by rw [h]; exact lt_irrefl _), if_neg (by rw [h]; exact lt_irrefl _),
        if_neg (by rw [h]; exact lt_irrefl _), if_neg (by rw [h]; exact lt_irrefl _)]
      decide
    · rw [if_neg (lt_asymm h), if_pos h, if_pos h]
      decide
  rw [hdef]
  exact ⟨hinst.1, hinst.2.1, hinst.2.2, by rw [← hdef]; exact hswap⟩

/-- C10: the inference result depends only on the projection-volume and
projection-intensity sub-maps of hemispheres "1" and "2"; two tables that
agree on those four sub-maps (and may differ arbitrarily elsewhere,
including all midline data) get the same inference result. -/
theorem c10_infer_noninterference :
    ∀ t t' : Table,
      subMap t "1" "projection-volume" = subMap t' "1" "projection-volume" →
      subMap t "1" "projection-intensity" = subMap t' "1" "projection-intensity" →
      subMap t "2" "projection-volume" = subMap t' "2" "projection-volume" →
      subMap t "2" "projection-intensity" = subMap t' "2" "projection-intensity" →
      infer_injection_hemisphere t = infer_injection_hemisphere t' := by
  intro t t' h1 h2 h3 h4
  have hs1 : tryScore t "1" = tryScore t' "1" := by
    rw [tryScore_eq_subMap, tryScore_eq_subMap, h1, h2]
  have hs2 : tryScore t "2" = tryScore t' "2" := by
    rw [tryScore_eq_subMap, tryScore_eq_subMap, h3, h4]
  unfold infer_injection_hemisphere hemiScore
  rw [hs1, hs2]

/-- C10 witness: a table holding only midline data infers identically to
the empty table. -/
theorem c10_infer_noninterference_witness :
    infer_injection_hemisphere junkTable3 = infer_injection_hemisphere [] :=
  c10_infer_noninterference junkTable3 [] (by decide) (by decide) (by decide) (by decide)

/-- C5: exactly one emission path fires in extract_projection_data.  When
the explicit-injection scan collects at least one record, the emitted
sites are exactly those records and no "inferred" record is appended;
when it collects none, exactly one record is emitted, whose structure id
is the literal marker "inferred" and whose hemisphere is the inference
result. -/
theorem c5_exclusive_emission :
    ∀ (fname : String) (doc : List PRecord) (fn : String) (t : Table) (sites : List Site)
      (es : List Site) (found : Bool),
      extract_projection_data fname doc areas_of_interest additional_fields =
        some (fn, t, sites) →
      injectionScan fname [385] doc = some (es, found) →
      (es ≠ [] → sites = es) ∧
      (es = [] → sites = [(fname, infer_injection_hemisphere t, "inferred")]) := by
  intro fname doc fn t sites es found hx hscan
  obtain ⟨-, -, vid, es', found', hvisp, hscan', hsites⟩ := extract_parts _ _ _ _ _ _ _ hx
  have hv385 : lookupA areas_of_interest "VISp" = some 385 := by decide
  rw [hv385] at hvisp
  cases hvisp
  rw [hscan'] at hscan
  simp only [Option.some.injEq, Prod.mk.injEq] at hscan
  obtain ⟨he, hf⟩ := hscan
  rw [he, hf] at hsites
  rw [he, hf] at hscan'
  have hiff := injectionScan_found_iff fname [385] doc es found hscan'
  constructor
  · intro hne
    have hfound : found = true := hiff.mpr hne
    rw [hsites, hfound, if_pos rfl]
  · intro hnil
    have hfound : found = false := by
      cases hfd : found with
      | false => rfl
      | true => exact absurd (hiff.mp hfd) (by rw [hnil]; simp)
    rw [hsites, hfound, if_neg (by simp), hnil]
    rfl

/-- C5 witness: the empty document has no explicit matches and yields
exactly one inferred record. -/
theorem c5_exclusive_emission_witness :
    (([] : List Site) ≠ [] → [("x", "unknown", "inferred")] = ([] : List Site)) ∧
    (([] : List Site) = [] → [("x", "unknown", "inferred")] =
      [("x", infer_injection_hemisphere (initTable areas_of_interest additional_fields),
        "inferred")]) :=
  c5_exclusive_emission "x" [] "x" (initTable areas_of_interest additional_fields)
    [("x", "unknown", "inferred")] [] false (by decide) (by decide)

/-- C6: the extracted table has an entry for every hemisphere in
{"1","2","3"}, every field in the 9-field measured set and every area of
the 13-area catalog; a combination for which no matching record carries
the field holds exactly the string "0". -/
theorem c6_table_total_default :
    ∀ (fname : String) (doc : List PRecord) (fn : String) (t : Table) (sites : List Site),
      extract_projection_data fname doc areas_of_interest additional_fields =
        some (fn, t, sites) →
      ∀ h ∈ (["1", "2", "3"] : List String), ∀ f ∈ fieldList additional_fields,
      ∀ a ∈ areas_of_interest.map Prod.fst,
      ∃ v, tableGet t h f a = some v ∧
        ((∀ r ∈ doc, recMatches areas_of_interest r h a → r.find f = none) → v = "0") := by
  intro fname doc fn t sites hx h hh f hf a ha
  have hwf := WF_extract _ _ _ _ _ _ _ hx
  have hsome := WF_tableGet_isSome areas_of_interest additional_fields t h f a hwf hh hf ha
  obtain ⟨v, hv⟩ := Option.isSome_iff_exists.mp hsome
  refine ⟨v, hv, ?_⟩
  intro habsent
  have hz := extract_cell_zero fname doc areas_of_interest additional_fields fn t sites
    h a f hx hh hf ha habsent
  rw [hv] at hz
  exact Option.some_inj.mp hz

/-- C6 witness: instantiation on the empty document at hemisphere "1",
field projection-density, area VISal. -/
theorem c6_table_total_default_witness :
    ∃ v, tableGet (initTable areas_of_interest additional_fields) "1" "projection-density"
      "VISal" = some v ∧
      ((∀ r ∈ ([] : List PRecord), recMatches areas_of_interest r "1" "VISal" →
        r.find "projection-density" = none) → v = "0") :=
  c6_table_total_default "x" [] "x" (initTable areas_of_interest additional_fields)
    [("x", "unknown", "inferred")] (by decide) "1" (by decide) "projection-density"
    (by decide) "VISal" (by decide)

/-- C7: when several records map to the same (hemisphere, area) pair, the
cell of each measured field equals the value contributed by the last such
record in document order: overwrite, not aggregation. -/
theorem c7_last_record_wins :
    ∀ (fname : String) (doc1 : List PRecord) (r : PRecord) (doc2 : List PRecord)
      (fn : String) (t : Table) (sites : List Site) (h a f : String),
      extract_projection_data fname (doc1 ++ r :: doc2) areas_of_interest
        additional_fields = some (fn, t, sites) →
      h ∈ (["1", "2", "3"] : List String) → f ∈ fieldList additional_fields →
      recMatches areas_of_interest r h a →
      (∀ r' ∈ doc2, ¬ recMatches areas_of_interest r' h a) →
      tableGet t h f a = fieldCellValue r f :=
  fun fname doc1 r doc2 fn t sites h a f hx hh hf hmt hnm =>
    extract_cell_last fname doc1 r doc2 areas_of_interest additional_fields fn t sites
      h a f hx hh hf hmt hnm

/-- C7 witness: a single VISp record carrying volume 2.5 determines the
volume cell of hemisphere 1, area VISp. -/
theorem c7_last_record_wins_witness :
    tableGet volVispTable "1" "volume" "VISp" = fieldCellValue volVispRec "volume" :=
  c7_last_record_wins "x" [] volVispRec [] "x" volVispTable
    [("x", "unknown", "inferred")] "1" "VISp" "volume" (by decide) (by decide) (by decide)
    (by decide) (by intro r' hr'; exact absurd hr' (List.not_mem_nil r'))

/-- C9: every cell of an extracted table is the string "0" or a value
formatted by the format(-, ".2E") model, hence parses under the float
model; consequently the except branch of infer_injection_hemisphere is
unreachable on extracted tables (tryScore never fails) and each
hemisphere score equals the exact sum of its parsed volume cells plus
1e-9 times the exact sum of its parsed intensity cells. -/
theorem c9_cells_parse_scores_exact :
    ∀ (fname : String) (doc : List PRecord) (fn : String) (t : Table) (sites : List Site),
      extract_projection_data fname doc areas_of_interest additional_fields =
        some (fn, t, sites) →
      (∀ h ∈ (["1", "2", "3"] : List String), ∀ f ∈ fieldList additional_fields,
        ∀ a ∈ areas_of_interest.map Prod.fst,
        ∃ v, tableGet t h f a = some v ∧ (v = "0" ∨ ∃ x : ℚ, v = pyFormatE2 x) ∧
          ∃ q, pyFloat v = some q) ∧
      (∀ hh ∈ (["1", "2"] : List String), tryScore t hh ≠ none ∧
        ∃ vm im vq iq, subMap t hh "projection-volume" = some vm ∧
          pyFloatList (valuesA vm) = some vq ∧
          subMap t hh "projection-intensity" = some im ∧
          pyFloatList (valuesA im) = some iq ∧
          hemiScore t hh = vq.sum + (1 / 1000000000) * iq.sum) := by
  intro fname doc fn t sites hx
  have hwf := WF_extract _ _ _ _ _ _ _ hx
  have hac := AC_extract _ _ _ _ _ _ _ hx
  have hparse : ∀ (hm : HemiMap) (fm : FieldMap) (hkey fkey : String),
      lookupA t hkey = some hm → lookupA hm fkey = some fm →
      ∀ v ∈ valuesA fm, (pyFloat v).isSome = true := by
    intro hm fm hkey fkey hl1 hl2 v hv
    obtain ⟨c, hc, rfl⟩ := List.mem_map.mp hv
    have hshape := hac (hkey, hm) (lookupA_mem _ _ _ hl1) (fkey, fm)
      (lookupA_mem _ _ _ hl2) c hc
    rcases hshape with hz | ⟨x, hfmt⟩
    · rw [hz, pyFloat_zero]
      rfl
    · rw [hfmt]
      exact pyFormatE2_parses x
  constructor
  · intro h hh f hf a ha
    have hsome := WF_tableGet_isSome areas_of_interest additional_fields t h f a hwf hh hf ha
    obtain ⟨v, hv⟩ := Option.isSome_iff_exists.mp hsome
    obtain ⟨hm, hl1, fm, hl2, hl3⟩ : ∃ hm, lookupA t h = some hm ∧
        ∃ fm, lookupA hm f = some fm ∧ lookupA fm a = some v := by
      unfold tableGet at hv
      cases h1 : lookupA t h with
      | none => rw [h1] at hv; cases hv
      | some hm =>
        rw [h1] at hv
        simp only [Option.some_bind] at hv
        cases h2 : lookupA hm f with
        | none => rw [h2] at hv; cases hv
        | some fm =>
          rw [h2] at hv
          simp only [Option.some_bind] at hv
          exact ⟨hm, rfl, fm, h2, hv⟩
    have hshape := hac (h, hm) (lookupA_mem _ _ _ hl1) (f, fm) (lookupA_mem _ _ _ hl2)
      (a, v) (lookupA_mem _ _ _ hl3)
    refine ⟨v, hv, hshape, ?_⟩
    rcases hshape with hz | ⟨x, hfmt⟩
    · have hz' : v = "0" := hz
      exact ⟨0, by rw [hz']; exact pyFloat_zero⟩
    · have hf' : v = pyFormatE2 x := hfmt
      obtain ⟨q, hq⟩ := Option.isSome_iff_exists.mp
        (show (pyFloat v).isSome = true by rw [hf']; exact pyFormatE2_parses x)
      exact ⟨q, hq⟩
  · intro hh hhm
    have hh3 : hh ∈ (["1", "2", "3"] : List String) := by
      simp only [List.mem_cons, List.not_mem_nil, or_false] at hhm ⊢
      rcases hhm with rfl | rfl
      · left; rfl
      · right; left; rfl
    obtain ⟨hm, hlk⟩ : ∃ x, lookupA t hh = some x := by
      have hx2 := lookupA_isSome_of_mem_keys t hh (by rw [hwf.1]; exact hh3)
      cases hl : lookupA t hh with
      | none => rw [hl] at hx2; simp at hx2
      | some x => exact ⟨x, rfl⟩
    have hfields : hm.map Prod.fst = fieldList additional_fields :=
      hwf.2.1 (hh, hm) (lookupA_mem _ _ _ hlk)
    obtain ⟨vm, hlkv⟩ : ∃ x, lookupA hm "projection-volume" = some x := by
      have hx2 := lookupA_isSome_of_mem_keys hm "projection-volume"
        (by rw [hfields]; decide)
      cases hl : lookupA hm "projection-volume" with
      | none => rw [hl] at hx2; simp at hx2
      | some x => exact ⟨x, rfl⟩
    obtain ⟨im, hlki⟩ : ∃ x, lookupA hm "projection-intensity" = some x := by
      have hx2 := lookupA_isSome_of_mem_keys hm "projection-intensity"
        (by rw [hfields]; decide)
      cases hl : lookupA hm "projection-intensity" with
      | none => rw [hl] at hx2; simp at hx2
      | some x => exact ⟨x, rfl⟩
    obtain ⟨vq, hvq⟩ := pyFloatList_isSome (valuesA vm)
      (hparse hm vm hh "projection-volume" hlk hlkv)
    obtain ⟨iq, hiq⟩ := pyFloatList_isSome (valuesA im)
      (hparse hm im hh "projection-intensity" hlk hlki)
    have hsub1 : subMap t hh "projection-volume" = some vm := by
      unfold subMap
      rw [hlk]
      simp only [Option.some_bind]
      exact hlkv
    have hsub2 : subMap t hh "projection-intensity" = some im := by
      unfold subMap
      rw [hlk]
      simp only [Option.some_bind]
      exact hlki
    have hts : tryScore t hh = some (vq.sum + (1 / 1000000000) * iq.sum) := by
      rw [tryScore_eq_subMap, hsub1]
      simp only [Option.some_bind]
      rw [hvq]
      simp only [Option.some_bind]
      rw [hsub2]
      simp only [Option.some_bind]
      rw [hiq]
      rfl
    refine ⟨by rw [hts]; simp, vm, im, vq, iq, hsub1, hvq, hsub2, hiq, ?_⟩
    unfold hemiScore
    rw [hts]
    rfl

/-- C9 witness: on the table of the empty document the try branch of the
hemisphere-1 score succeeds. -/
theorem c9_cells_parse_scores_exact_witness :
    tryScore (initTable areas_of_interest additional_fields) "1" ≠ none :=
  ((c9_cells_parse_scores_exact "x" [] "x" (initTable areas_of_interest additional_fields)
    [("x", "unknown", "inferred")] (by decide)).2 "1" (by decide)).1

/-- C1 (code behavior at the failing input): on a document holding exactly
one record with is-injection "true", structure-id "385" and hemisphere-id
"1", the explicit branch never fires, because line 73 compares the
structure-id string with the integer 385 (pyStrEqInt, always false in
Python); the code emits the single record (filename, "unknown",
"inferred") instead of the explicit (filename, "1", "385") the
specification describes. -/
theorem c1_injection_branch_dead :
    (extract_projection_data "file" [injTrueRec] areas_of_interest additional_fields).map
      (fun x => x.2.2) = some [("file", "unknown", "inferred")] ∧
    some [("file", "unknown", "inferred")] ≠
      some [(("file" : String), ("1" : String), ("385" : String))] := by
  exact ⟨by decide, by decide⟩

/-- C2 counterexample: a VISp record whose projection-density text is the
non-numeric string "abc" makes extract_projection_data raise (modelled as
`none`), refuting the claim that a malformed field never surfaces as an
error. -/
theorem c2_counterexample_nonnumeric_raises :
    extract_projection_data "f" [badFieldRec] areas_of_interest additional_fields = none :=
  Option.isNone_iff_eq_none.mp (by decide)

/-- C2 amended: for a record matched to a (hemisphere, area) pair, an
absent measured-field child element leaves the cell at the default "0"
and extraction continues; but a present child whose text does not parse
as a float raises, aborting the whole extraction. -/
theorem c2_amended_absent_defaults_nonnumeric_raises :
    (∀ (fname : String) (doc1 : List PRecord) (r : PRecord) (doc2 : List PRecord)
      (fn : String) (t : Table) (sites : List Site) (h a f : String),
      extract_projection_data fname (doc1 ++ r :: doc2) areas_of_interest
        additional_fields = some (fn, t, sites) →
      h ∈ (["1", "2", "3"] : List String) → f ∈ fieldList additional_fields →
      recMatches areas_of_interest r h a →
      (∀ r' ∈ doc2, ¬ recMatches areas_of_interest r' h a) →
      r.find f = none →
      tableGet t h f a = some "0") ∧
    (∀ (fname : String) (doc1 : List PRecord) (r : PRecord) (doc2 : List PRecord)
      (h a f : String) (txt : Option String),
      h ∈ (["1", "2", "3"] : List String) → f ∈ fieldList additional_fields →
      recMatches areas_of_interest r h a →
      r.find f = some txt → pyFloatOfText txt = none →
      extract_projection_data fname (doc1 ++ r :: doc2) areas_of_interest
        additional_fields = none) := by
  constructor
  · intro fname doc1 r doc2 fn t sites h a f hx hh hf hmt hnm2 habs
    rw [extract_cell_last fname doc1 r doc2 areas_of_interest additional_fields fn t sites
      h a f hx hh hf hmt hnm2]
    exact fieldCellValue_none_find r f habs
  · intro fname doc1 r doc2 h a f txt hh hf hmt hfind hpf
    exact extract_bad_field_none fname doc1 r doc2 areas_of_interest additional_fields
      h a f txt hh hf hmt hfind hpf

/-- C2 witness: both amended directions instantiated, on a record with no
measured fields and on a record with non-numeric density text. -/
theorem c2_amended_witness :
    tableGet plainVispTable "1" "projection-density" "VISp" = some "0" ∧
    extract_projection_data "f" [badFieldRec] areas_of_interest additional_fields = none := by
  constructor
  · exact c2_amended_absent_defaults_nonnumeric_raises.1 "f" [] plainVispRec [] "f"
      plainVispTable [("f", "unknown", "inferred")] "1" "VISp" "projection-density"
      (by decide) (by decide) (by decide) (by decide)
      (by intro r' hr'; exact absurd hr' (List.not_mem_nil r')) (by decide)
  · exact c2_amended_absent_defaults_nonnumeric_raises.2 "f" [] badFieldRec [] "1" "VISp"
      "projection-density" (some "abc") (by decide) (by decide) (by decide) (by decide)
      (by decide)

/-! ### Directory-level lemmas and claim C8 -/

theorem foldl_preserves {α β : Type} (P : β → Prop) (step : β → α → β) (l : List α)
    (hstep : ∀ b a, P b → P (step b a)) : ∀ b, P b → P (l.foldl step b) := by
  induction l with
  | nil => intro b hb; exact hb
  | cons a l ih =>
    intro b hb
    exact ih (step b a) (hstep b a hb)

theorem lookupA_map_entry {κ α : Type} [DecidableEq κ] (g : κ × α → α)
    (m : List (κ × α)) (k : κ) (v : α) (h : lookupA m k = some v) :
    lookupA (m.map (fun e => (e.1, g e))) k = some (g (k, v)) := by
  induction m with
  | nil => cases h
  | cons e m ih =>
    obtain ⟨k0, v0⟩ := e
    by_cases hk : k0 = k
    · subst hk
      simp only [lookupA, if_pos rfl] at h
      cases h
      simp only [List.map_cons, lookupA, eq_self_iff_true, if_true]
    · simp only [lookupA, if_neg hk] at h
      simp only [List.map_cons, lookupA, if_neg hk]
      exact ih h

theorem head?_append_left {α : Type} (l l2 : List α) (x : α) (h : l.head? = some x) :
    (l ++ l2).head? = some x := by
  cases l with
  | nil => cases h
  | cons a l => exact h

/-- C8: process_xml_files checks exactly one precondition.  A missing
input directory makes it return without writing any output; with an
existing directory it always proceeds, and every one of the 27
hemisphere-and-field CSVs and the injection-sites CSV starts with its
header row, written before any file is processed. -/
theorem c8_missing_dir_and_headers :
    process_xml_files none areas_of_interest additional_fields = none ∧
    ∀ files : List PFile, ∃ hemi inj ok,
      process_xml_files (some files) areas_of_interest additional_fields =
        some (hemi, inj, ok) ∧
      (∀ h ∈ (["1", "2", "3"] : List String), ∀ fl ∈ fieldList additional_fields,
        ∃ rows, lookupA hemi (h, fl) = some rows ∧
          rows.head? = some (csvHeaderMain areas_of_interest)) ∧
      inj.head? = some csvHeaderInj := by
  constructor
  · rfl
  · intro files
    refine ⟨_, _, _, rfl, ?_⟩
    refine foldl_preserves
      (fun st : List ((String × String) × List (List String)) × List (List String) × Bool =>
        (∀ h ∈ (["1", "2", "3"] : List String), ∀ fl ∈ fieldList additional_fields,
          ∃ rows, lookupA st.1 (h, fl) = some rows ∧
            rows.head? = some (csvHeaderMain areas_of_interest)) ∧
        st.2.1.head? = some csvHeaderInj)
      (processFileStep areas_of_interest additional_fields)
      (files.filter (fun f => f.fname.endsWith ".xml")) ?_ _ (by decide)
    intro st f hPst
    obtain ⟨hhemi, hinj⟩ := hPst
    unfold processFileStep
    by_cases hoff : st.2.2 = false
    · rw [if_pos hoff]
      exact ⟨hhemi, hinj⟩
    · rw [if_neg hoff]
      cases hx : extract_projection_data (f.fname.dropRight 4) f.recs areas_of_interest
          additional_fields with
      | none => exact ⟨hhemi, hinj⟩
      | some res =>
        obtain ⟨fn, t, sites⟩ := res
        refine ⟨?_, ?_⟩
        · intro h hh fl hfl
          obtain ⟨rows, hrows, hhead⟩ := hhemi h hh fl hfl
          refine ⟨rows ++ [csvRow areas_of_interest fn t h fl], ?_, ?_⟩
          · exact lookupA_map_entry _ st.1 (h, fl) rows hrows
          · exact head?_append_left rows _ _ hhead
        · simp only
          by_cases hemp : sites.isEmpty
          · rw [if_pos hemp]
            exact hinj
          · rw [if_neg hemp]
            exact head?_append_left _ _ _ hinj

/-- C8 witness: instantiation on the empty directory listing. -/
theorem c8_missing_dir_and_headers_witness :
    ∃ hemi inj ok,
      process_xml_files (some ([] : List PFile)) areas_of_interest additional_fields =
        some (hemi, inj, ok) ∧
      (∀ h ∈ (["1", "2", "3"] : List String), ∀ fl ∈ fieldList additional_fields,
        ∃ rows, lookupA hemi (h, fl) = some rows ∧
          rows.head? = some (csvHeaderMain areas_of_interest)) ∧
      inj.head? = some csvHeaderInj :=
  c8_missing_dir_and_headers.2 []
